import Mathlib

/-!
Verification development for the pyconfme repository.

The development shallowly embeds the parts of the code base that the
specification talks about:

* `src/pyconfme/utility/dict_deep_update.py` — the deep-merge engine
  `dict_deep_update`, modelled as a pure function on finite Python values;
* `src/pyconfme/config/config_data_types.py` — the `ConfigDataTypes` tag;
* `src/pyconfme/config/config_file_loaders.py` — the format detector
  `_determine_config_file_type`, the per-format parser wrappers, the format
  resolver `load_dict_from_file` and the multi-source loader
  `_settings_config_load`.

Python dictionaries are modelled as ordered association lists (CPython dicts
preserve insertion order); dictionary keys and set elements are modelled as
immutable scalars (`None`, `bool`, `int`, `str` — floats are not modelled),
which covers every key the repository and its tests put into configuration
mappings.  Exceptions are modelled with `Except`.  In-place mutation is
modelled functionally: a call that mutates its target in Python returns the
new value of the target here.
-/

/-- Immutable scalar Python values: the values that appear as dictionary keys
and as set elements in configuration mappings. -/
inductive PyScalar : Type where
  | pynone : PyScalar
  | pybool : Bool → PyScalar
  | pyint : Int → PyScalar
  | pystr : String → PyScalar
  deriving DecidableEq, Repr

/-- Python values stored in configuration mappings: scalars, lists, sets and
nested dictionaries (ordered association lists). -/
inductive PyVal : Type where
  | scalar : PyScalar → PyVal
  | pylist : List PyVal → PyVal
  | pyset : List PyScalar → PyVal
  | pydict : List (PyScalar × PyVal) → PyVal

/-- Bindings of a modelled Python dictionary, in insertion order. -/
abbrev Entries := List (PyScalar × PyVal)

/-- Python `key in d` on the association-list model of a dictionary (the
value type is a parameter so that both pure dictionaries and heap
dictionaries share these primitives). -/
def containsKey {A : Type} (es : List (PyScalar × A)) (k : PyScalar) : Bool :=
  es.any (fun e => e.1 = k)

/-- Python `d[key]` lookup (first binding; real dictionaries never hold a key
twice, so quantified statements carry a `Nodup` hypothesis on the keys). -/
def getKey? {A : Type} : List (PyScalar × A) → PyScalar → Option A
  | [], _ => Option.none
  | (k1, v1) :: rest, k => if k1 = k then some v1 else getKey? rest k

/-- Python `d[key] = v`: replace the value of an existing binding in place,
keeping its insertion position, or append a new binding at the end. -/
def setKey {A : Type} : List (PyScalar × A) → PyScalar → A → List (PyScalar × A)
  | [], k, v => [(k, v)]
  | (k1, v1) :: rest, k, v =>
      if k1 = k then (k, v) :: rest else (k1, v1) :: setKey rest k v

/-- Python `s.update(t)` on the list model of a set: append the elements of
`t` that are not yet present. -/
def setUpdate (xs ys : List PyScalar) : List PyScalar :=
  xs ++ ys.filter (fun y => !(decide (y ∈ xs)))

/-- Maximum depth to which dictionaries are merged; `MAX_RECURSION_DEPTH` in
`dict_deep_update.py`. -/
def MAX_RECURSION_DEPTH : Nat := 8

/-- The exceptions `dict_deep_update` raises: `ValueError` for a `None`
argument and `RecursionError` for exceeding `MAX_RECURSION_DEPTH`. -/
inductive MergeError : Type where
  | valueError : String → MergeError
  | recursionError : String → MergeError
  deriving DecidableEq, Repr

/-- The message of the `RecursionError` raised by `dict_deep_update`, with
`MAX_RECURSION_DEPTH = 8` interpolated. -/
def recursionErrorMessage : String :=
  "Exceeded maximum recursion depth == 8. Reduce depth of source dictionary."

/-- Body of the `for source_key, source_value in source.items()` loop of
`dict_deep_update`, for one binding `(k, v)` of the source: the branch on the
type of `v` (list / dict / set / `None` / other scalar) followed by the branch
on whether `k` is bound in the target and on the type of its target value.
`recurse` stands for the recursive call
`dict_deep_update(target[source_key], source_value, recursion_depth + 1)`
made in the mapping/mapping branch.  `copy.deepcopy`, `set.copy` and
`copy.copy` are the identity on these pure values, and the `None` branch and
the final scalar branch both store the source value, so they are a single
case here. -/
def mergeValue (recurse : Entries → Entries → Except MergeError Entries)
    (target : Entries) (k : PyScalar) (v : PyVal) :
    Except MergeError Entries :=
  match v with
  | PyVal.pylist xs =>
      match getKey? target k with
      | Option.none => Except.ok (setKey target k (PyVal.pylist xs))
      | some (PyVal.pylist ys) => Except.ok (setKey target k (PyVal.pylist (ys ++ xs)))
      | some _ => Except.ok (setKey target k (PyVal.pylist xs))
  | PyVal.pydict es =>
      match getKey? target k with
      | Option.none => Except.ok (setKey target k (PyVal.pydict es))
      | some (PyVal.pydict tes) =>
          (recurse tes es).map (fun merged => setKey target k (PyVal.pydict merged))
      | some _ => Except.ok (setKey target k (PyVal.pydict es))
  | PyVal.pyset xs =>
      match getKey? target k with
      | Option.none => Except.ok (setKey target k (PyVal.pyset xs))
      | some (PyVal.pyset ys) => Except.ok (setKey target k (PyVal.pyset (setUpdate ys xs)))
      | some _ => Except.ok (setKey target k (PyVal.pyset xs))
  | PyVal.scalar s => Except.ok (setKey target k (PyVal.scalar s))

/-- The `for` loop of `dict_deep_update` over the remaining bindings of the
source, threading the mutated target; a raised exception aborts the loop. -/
def mergeEntries (recurse : Entries → Entries → Except MergeError Entries)
    (target : Entries) : Entries → Except MergeError Entries
  | [] => Except.ok target
  | (k, v) :: rest =>
      match mergeValue recurse target k v with
      | Except.error e => Except.error e
      | Except.ok target1 => mergeEntries recurse target1 rest

/-- Fuel-indexed core of `dict_deep_update` on non-`None` arguments.  The
fuel is `MAX_RECURSION_DEPTH + 1 - recursion_depth`, so running out of fuel
is exactly the guard `recursion_depth > MAX_RECURSION_DEPTH` of the Python
code, checked before anything else; with fuel left, an empty source clears
the target (`target.clear()`), and otherwise the source bindings are merged
in order, recursing with one unit of fuel less exactly where the Python code
calls itself with `recursion_depth + 1`. -/
def dictDeepUpdateFuel : Nat → Entries → Entries → Except MergeError Entries
  | 0, _, _ => Except.error (MergeError.recursionError recursionErrorMessage)
  | _ + 1, _, [] => Except.ok []
  | fuel + 1, target, e :: rest =>
      mergeEntries (fun a b => dictDeepUpdateFuel fuel a b) target (e :: rest)

/-- Entry point `dict_deep_update(target, source, recursion_depth)` of
`src/pyconfme/utility/dict_deep_update.py`.  A `None` target or source is an
`Option.none` argument.  Following the Python code, a negative
`recursion_depth` is clamped to `0` (`Int.toNat`), the depth ceiling is
checked first, then the `None` checks run, then the merge itself. -/
def dict_deep_update (target source : Option Entries) (recursion_depth : Int) :
    Except MergeError Entries :=
  let depth : Nat := recursion_depth.toNat
  if MAX_RECURSION_DEPTH < depth then
    Except.error (MergeError.recursionError recursionErrorMessage)
  else
    match target, source with
    | Option.none, _ => Except.error (MergeError.valueError "Target dictionary is None.")
    | _, Option.none => Except.error (MergeError.valueError "Source dictionary is None.")
    | some t, some s => dictDeepUpdateFuel (MAX_RECURSION_DEPTH + 1 - depth) t s

/-- The `ConfigDataTypes` enumeration of
`src/pyconfme/config/config_data_types.py`. -/
inductive ConfigDataTypes : Type where
  | toml : ConfigDataTypes
  | json : ConfigDataTypes
  | yaml : ConfigDataTypes
  | infer : ConfigDataTypes
  | unknown : ConfigDataTypes
  deriving DecidableEq, Repr

/-- Python `str.lower()` as applied to file-name suffixes (which are ASCII):
lowercase every ASCII capital letter, leave everything else unchanged. -/
def asciiLower (s : String) : String :=
  String.mk (s.data.map (fun c =>
    if 'A' ≤ c ∧ c ≤ 'Z' then Char.ofNat (c.toNat + 32) else c))

/-- The format detector `_determine_config_file_type` of
`config_file_loaders.py`, expressed on the suffix of the file path (the
string that `pathlib.Path.suffix` returns for the path, dot included; the
suffix-extraction itself is Python standard-library behaviour and outside
this model).  The detector lowercases the suffix and looks it up in three
literal tables; anything else is `unknown`.  It is a pure function: no input
/ output and no side effects. -/
def _determine_config_file_type (suffix : String) : ConfigDataTypes :=
  if asciiLower suffix ∈ [".json", ".jsn"] then ConfigDataTypes.json
  else if asciiLower suffix ∈ [".toml", ".tml", ".ini", ".config", ".cfg"] then
    ConfigDataTypes.toml
  else if asciiLower suffix ∈ [".yml", ".yaml"] then ConfigDataTypes.yaml
  else ConfigDataTypes.unknown

/-- Error object of the `json` / `toml` backend libraries
(`json.JSONDecodeError` / `toml.TomlDecodeError`): message, parsed document,
absolute position, 1-based line and column. -/
structure BackendParseError : Type where
  msg : String
  doc : String
  pos : Int
  lineno : Int
  colno : Int
  deriving DecidableEq, Repr

/-- Error object of the PyYAML backend (`yaml.YAMLError`); only the optional
`problem_mark` attribute is inspected by the repository code. -/
structure YamlBackendError : Type where
  problem_mark : Option String
  deriving DecidableEq, Repr

/-- The three third-party parsing backends (`json.loads`, `toml.loads`,
`yaml.safe_load`).  They are external collaborators of the repository, so the
model abstracts them as oracle functions from document text to a mapping or a
backend error. -/
structure Backends : Type where
  jsonLoads : String → Except BackendParseError Entries
  tomlLoads : String → Except BackendParseError Entries
  yamlSafeLoad : String → Except YamlBackendError Entries

/-- The uniform parse-error record `DictLoadError` of
`config_file_loaders.py`; all fields except the message default to `None` in
the Python constructor, hence the `Option` fields. -/
structure DictLoadError : Type where
  message : String
  document : Option String
  position : Option Int
  line_number : Option Int
  column_number : Option Int
  deriving DecidableEq, Repr

/-- A file-system path as the loaders observe it: the resolved path string,
its suffix, the `exists` / `is_file` / `is_dir` predicates, the byte size
reported by `stat`, and the text content of the file. -/
structure PathInfo : Type where
  name : String
  suffix : String
  existsOnDisk : Bool
  is_file : Bool
  is_dir : Bool
  size : Nat
  content : String
  deriving DecidableEq, Repr

/-- A configuration source: a file path, or an open stream / in-memory
buffer collapsed to its readable text (binary-versus-text decoding only
changes how the same text is obtained, which the model abstracts away). -/
inductive FilePathOrBuffer : Type where
  | path : PathInfo → FilePathOrBuffer
  | buffer : String → FilePathOrBuffer
  deriving DecidableEq, Repr

/-- The document text a parser reads from the source. -/
def contentOf : FilePathOrBuffer → String
  | FilePathOrBuffer.path p => p.content
  | FilePathOrBuffer.buffer c => c

/-- Python `str(file_path)`, as used in error messages. -/
def strOfSource : FilePathOrBuffer → String
  | FilePathOrBuffer.path p => p.name
  | FilePathOrBuffer.buffer _ => "<buffer>"

/-- Wrapper `_load_dict_from_json_stream_or_file`: run the JSON backend; on
success return the mapping; on a `JSONDecodeError` raise a `DictLoadError`
populated from the backend error if the declared type is `json`, otherwise
rewind the stream (a no-op on this content model) and return no result.
The `AttributeError` branch for structurally invalid argument objects is not
representable here, since every modelled source is a path or a buffer. -/
def _load_dict_from_json_stream_or_file (backends : Backends)
    (file_path : FilePathOrBuffer) (data_type : ConfigDataTypes) :
    Except DictLoadError (Option Entries) :=
  match backends.jsonLoads (contentOf file_path) with
  | Except.ok d => Except.ok (some d)
  | Except.error e =>
      if data_type = ConfigDataTypes.json then
        Except.error ⟨e.msg, some e.doc, some e.pos, some e.lineno, some e.colno⟩
      else
        Except.ok Option.none

/-- Wrapper `_load_dict_from_toml_stream_or_file`: same contract as the JSON
wrapper but for the TOML backend and declared type `toml` (the byte-stream /
text-stream / `StringIO` case split only selects how the same text reaches
`toml.loads`, which the content model absorbs). -/
def _load_dict_from_toml_stream_or_file (backends : Backends)
    (file_path : FilePathOrBuffer) (data_type : ConfigDataTypes) :
    Except DictLoadError (Option Entries) :=
  match backends.tomlLoads (contentOf file_path) with
  | Except.ok d => Except.ok (some d)
  | Except.error e =>
      if data_type = ConfigDataTypes.toml then
        Except.error ⟨e.msg, some e.doc, some e.pos, some e.lineno, some e.colno⟩
      else
        Except.ok Option.none

/-- Wrapper `_load_dict_from_yaml_stream_or_file`: on a `YAMLError` with
declared type `yaml`, raise a `DictLoadError` whose message embeds the
problem mark when the backend exposes one (the remaining record fields stay
`None`); with a non-matching declared type, soft-fail with no result. -/
def _load_dict_from_yaml_stream_or_file (backends : Backends)
    (file_path : FilePathOrBuffer) (data_type : ConfigDataTypes) :
    Except DictLoadError (Option Entries) :=
  match backends.yamlSafeLoad (contentOf file_path) with
  | Except.ok d => Except.ok (some d)
  | Except.error e =>
      if data_type = ConfigDataTypes.yaml then
        match e.problem_mark with
        | some mark =>
            Except.error ⟨"YAML syntax error. " ++ mark, Option.none, Option.none,
              Option.none, Option.none⟩
        | Option.none =>
            Except.error ⟨" " ++ strOfSource file_path ++
              ".Undetermined error while trying to parse as yaml file",
              Option.none, Option.none, Option.none, Option.none⟩
      else
        Except.ok Option.none

/-- Default ceiling on configuration file size, `MAX_CONFIG_FILE_SIZE`. -/
def MAX_CONFIG_FILE_SIZE : Nat := 1024 * 1024 * 1024

/-- The exceptions that `load_dict_from_file` raises, as distinguishable
kinds: the `ValueError` for a `None` input, `FileNotFoundError`,
`IsADirectoryError`, the `ValueError` for an oversized file, and the
`DictLoadError` carrying a parse-error record. -/
inductive LoadError : Type where
  | valueErrorNoneInput : LoadError
  | fileNotFound : String → LoadError
  | isADirectory : String → LoadError
  | valueErrorFileSize : String → Nat → Nat → LoadError
  | dictLoad : DictLoadError → LoadError
  deriving DecidableEq, Repr

/-- The parser-trial loop at the end of `load_dict_from_file`: try the
resolve order left to right, return the first non-`None` result, let a raised
`DictLoadError` propagate, and after all parsers failed soft raise the
terminal `DictLoadError` naming the source (whose message this model keeps
abbreviated) with the read-back document text. -/
def tryResolveOrder (backends : Backends) (fp : FilePathOrBuffer)
    (determined_data_type : ConfigDataTypes) :
    List ConfigDataTypes → Except LoadError Entries
  | [] =>
      Except.error (LoadError.dictLoad
        ⟨"Format of config data " ++ strOfSource fp ++
          " could not be determined to be one of the known config data types.",
         some (contentOf fp), some 0, some 0, some 0⟩)
  | t :: rest =>
      let attempt : Except DictLoadError (Option Entries) :=
        if t = ConfigDataTypes.json then
          _load_dict_from_json_stream_or_file backends fp determined_data_type
        else if t = ConfigDataTypes.toml then
          _load_dict_from_toml_stream_or_file backends fp determined_data_type
        else if t = ConfigDataTypes.yaml then
          _load_dict_from_yaml_stream_or_file backends fp determined_data_type
        else Except.ok Option.none
      match attempt with
      | Except.error e => Except.error (LoadError.dictLoad e)
      | Except.ok (some result) => Except.ok result
      | Except.ok Option.none => tryResolveOrder backends fp determined_data_type rest

/-- The format resolver `load_dict_from_file` of `config_file_loaders.py`.
A `None` source raises a `ValueError` at once.  For a path source the
existence / directory / size checks run next, in the order of the code: the
not-found and is-a-directory errors are raised inside the `not is_file()`
block (a path that exists but is neither file nor directory falls through,
as in the code), then the size ceiling is enforced, and then the effective
data type is determined — from the suffix when the declared type is `infer`,
else the declared type as given.  Finally the parsers are tried in the
resolve order of the code: `[toml, json, yaml]` for effective type `toml`,
`[yaml, json, toml]` for `yaml`, and `[json, toml, yaml]` otherwise, each
call receiving the effective type as its declared type. -/
def load_dict_from_file (backends : Backends) (file_path : Option FilePathOrBuffer)
    (data_type : ConfigDataTypes) (max_file_size : Nat) : Except LoadError Entries :=
  match file_path with
  | Option.none => Except.error LoadError.valueErrorNoneInput
  | some fp =>
      let fileChecks : Except LoadError ConfigDataTypes :=
        match fp with
        | FilePathOrBuffer.buffer _ => Except.ok data_type
        | FilePathOrBuffer.path p =>
            let existenceCheck : Except LoadError Unit :=
              if !p.is_file then
                if !p.existsOnDisk then Except.error (LoadError.fileNotFound p.name)
                else if p.is_dir then Except.error (LoadError.isADirectory p.name)
                else Except.ok ()
              else Except.ok ()
            existenceCheck.bind (fun _ =>
              if p.size > max_file_size then
                Except.error (LoadError.valueErrorFileSize p.name p.size max_file_size)
              else
                Except.ok (if data_type = ConfigDataTypes.infer then
                  _determine_config_file_type p.suffix
                else data_type))
      fileChecks.bind (fun determined_data_type =>
        let resolve_order : List ConfigDataTypes :=
          if determined_data_type = ConfigDataTypes.toml then
            [ConfigDataTypes.toml, ConfigDataTypes.json, ConfigDataTypes.yaml]
          else if determined_data_type = ConfigDataTypes.yaml then
            [ConfigDataTypes.yaml, ConfigDataTypes.json, ConfigDataTypes.toml]
          else
            [ConfigDataTypes.json, ConfigDataTypes.toml, ConfigDataTypes.yaml]
        tryResolveOrder backends fp determined_data_type resolve_order)

/-- The exceptions observable from `_settings_config_load`: `ValueError` for
an invalid policy or a `None` source under `propagate`, a re-raised loader
exception, and an uncaught exception from the deep merge. -/
inductive SclError : Type where
  | valueError : String → SclError
  | load : LoadError → SclError
  | merge : MergeError → SclError
  deriving DecidableEq, Repr

/-- Outcome of `_settings_config_load`: a returned dictionary, process
termination via `sys.exit()` under the abort policy, or a raised
exception. -/
inductive SclResult : Type where
  | ok : Entries → SclResult
  | sysExit : SclResult
  | raised : SclError → SclResult

/-- The allowed error-handling policy values of `_settings_config_load`. -/
def allowed_error_handling : List String := ["abort", "ignore", "propagate"]

/-- The source loop of `_settings_config_load`: for each source, a path is
taken to exist exactly when `is_file()` holds and any non-path source counts
as existing; non-existing sources are skipped with no effect.  An existing
source is loaded with `load_dict_from_file` and deep-merged into the running
accumulator.  A raised `DictLoadError` is policy-gated (abort prints and
exits, propagate re-raises, ignore skips the source); so is a raised
`IOError`, which in Python covers `FileNotFoundError` and
`IsADirectoryError` (`OSError` subclasses).  The `ValueError` kinds of the
loader and any exception of the merge itself are caught by neither handler
and propagate under every policy. -/
def sclLoop (backends : Backends) (data_type : ConfigDataTypes)
    (error_handling : String) (result_dict : Entries) :
    List FilePathOrBuffer → SclResult
  | [] => SclResult.ok result_dict
  | config_data :: rest =>
      let existsFlag : Bool :=
        match config_data with
        | FilePathOrBuffer.path p => p.is_file
        | FilePathOrBuffer.buffer _ => true
      if existsFlag then
        match load_dict_from_file backends (some config_data) data_type
            MAX_CONFIG_FILE_SIZE with
        | Except.ok load_result =>
            match dict_deep_update (some result_dict) (some load_result) 0 with
            | Except.ok merged => sclLoop backends data_type error_handling merged rest
            | Except.error e => SclResult.raised (SclError.merge e)
        | Except.error (LoadError.dictLoad e) =>
            if error_handling = "abort" then SclResult.sysExit
            else if error_handling = "propagate" then
              SclResult.raised (SclError.load (LoadError.dictLoad e))
            else sclLoop backends data_type error_handling result_dict rest
        | Except.error (LoadError.fileNotFound s) =>
            if error_handling = "abort" then SclResult.sysExit
            else if error_handling = "propagate" then
              SclResult.raised (SclError.load (LoadError.fileNotFound s))
            else sclLoop backends data_type error_handling result_dict rest
        | Except.error (LoadError.isADirectory s) =>
            if error_handling = "abort" then SclResult.sysExit
            else if error_handling = "propagate" then
              SclResult.raised (SclError.load (LoadError.isADirectory s))
            else sclLoop backends data_type error_handling result_dict rest
        | Except.error e => SclResult.raised (SclError.load e)
      else sclLoop backends data_type error_handling result_dict rest

/-- The multi-source loader `_settings_config_load` of
`config_file_loaders.py` (the `settings` argument is unused by the code and
omitted; a single non-list source is normalised by the code into a singleton
list, so the model takes the normalised list).  A missing policy defaults to
`propagate`; an invalid policy raises a `ValueError`.  A `None` source list
is policy-gated: abort exits, propagate raises a `ValueError`, ignore
returns the empty dictionary.  Otherwise the sources are folded over an
initially empty accumulator by `sclLoop`. -/
def _settings_config_load (backends : Backends)
    (file_path : Option (List FilePathOrBuffer)) (data_type : ConfigDataTypes)
    (error_handling : Option String) : SclResult :=
  let eh : String :=
    match error_handling with
    | Option.none => "propagate"
    | some s => s
  if eh ∉ allowed_error_handling then
    SclResult.raised (SclError.valueError "Invalid error handling type.")
  else
    match file_path with
    | Option.none =>
        if eh = "abort" then SclResult.sysExit
        else if eh = "propagate" then
          SclResult.raised (SclError.valueError "File path is not a valid type.")
        else SclResult.ok []
    | some config_data_elements =>
        sclLoop backends data_type eh [] config_data_elements

/-- A mapping holding one chain of `n` further mapping levels nested below
the top level; merging `nestedDict n` into itself performs `n` recursive
nested-mapping merges. -/
def nestedDict : Nat → Entries
  | 0 => [(PyScalar.pystr "v", PyVal.scalar (PyScalar.pyint 0))]
  | n + 1 => [(PyScalar.pystr "k", PyVal.pydict (nestedDict n))]

/-- Backends used for witnesses whose claims must not depend on parsing. -/
def witnessBackends : Backends :=
  ⟨fun _ => Except.ok [], fun _ => Except.ok [], fun _ => Except.ok []⟩

/-- A path that does not exist on disk. -/
def missingPathW : PathInfo := ⟨"missing.json", ".json", false, false, false, 0, ""⟩

/-- A path that names a directory. -/
def dirPathW : PathInfo := ⟨"somedir", "", true, false, true, 0, ""⟩

/-- A path whose file is larger than the size ceiling used in the witness. -/
def bigPathW : PathInfo := ⟨"big.json", ".json", true, true, false, 2000, "doc"⟩

/-- The mapping the JSON backend produces in the C1 scenario. -/
def exampleJsonEntries : Entries := [(PyScalar.pystr "a", PyVal.scalar (PyScalar.pyint 1))]

/-- The backend error the TOML library reports on the JSON document. -/
def exampleTomlError : BackendParseError :=
  ⟨"Key name found without value. Reached end of line.", "json text", 3, 1, 4⟩

/-- Backends for the C1 scenario: the document parses under JSON and is
rejected by TOML (and YAML is irrelevant). -/
def jsonContentBackends : Backends :=
  ⟨fun _ => Except.ok exampleJsonEntries,
   fun _ => Except.error exampleTomlError,
   fun _ => Except.ok []⟩

/-- An existing regular `.json` file holding the JSON document. -/
def exampleJsonPath : PathInfo := ⟨"config.json", ".json", true, true, false, 9, "json text"⟩

/-- The mapping held by the valid second source of the C8 witness. -/
def secondEntries : Entries := [(PyScalar.pystr "b", PyVal.scalar (PyScalar.pyint 2))]

/-- Backends for the C8 witness: JSON parses the valid document. -/
def c8Backends : Backends :=
  ⟨fun _ => Except.ok secondEntries,
   fun _ => Except.error ⟨"bad toml", "", 0, 0, 0⟩,
   fun _ => Except.ok []⟩

/-- The valid second source of the C8 witness. -/
def validPathW : PathInfo := ⟨"good.json", ".json", true, true, false, 12, "good json"⟩

/-- A Python runtime value stored in a variable or container slot: an
immutable scalar, or a reference to a mutable heap object. -/
inductive HVal : Type where
  | scalar : PyScalar → HVal
  | ref : Nat → HVal
  deriving DecidableEq, Repr

/-- A mutable Python object: a list, a set, or a dictionary. -/
inductive HObj : Type where
  | hlist : List HVal → HObj
  | hset : List PyScalar → HObj
  | hdict : List (PyScalar × HVal) → HObj
  deriving DecidableEq, Repr

/-- Bindings of a heap dictionary. -/
abbrev HEntries := List (PyScalar × HVal)

/-- The heap: a total map from addresses to objects, with the next fresh
address; addresses at or above `next` are unallocated. -/
structure Heap : Type where
  objs : Nat → HObj
  next : Nat

/-- Overwrite the object stored at address `a` (in-place mutation). -/
def heapSet (h : Heap) (a : Nat) (o : HObj) : Heap :=
  ⟨fun x => if x = a then o else h.objs x, h.next⟩

/-- Allocate a fresh object and return the reference to it. -/
def heapAlloc (h : Heap) (o : HObj) : Heap × HVal :=
  (⟨fun x => if x = h.next then o else h.objs x, h.next + 1⟩, HVal.ref h.next)

/-- Copy a list of slot values left to right, threading the heap. -/
def copyValsWith (copyOne : Heap → HVal → Option (Heap × HVal)) :
    Heap → List HVal → Option (Heap × List HVal)
  | h, [] => some (h, [])
  | h, v :: rest => do
      let (h1, v1) ← copyOne h v
      let (h2, rest1) ← copyValsWith copyOne h1 rest
      some (h2, v1 :: rest1)

/-- Copy dictionary bindings left to right, threading the heap. -/
def copyBindingsWith (copyOne : Heap → HVal → Option (Heap × HVal)) :
    Heap → HEntries → Option (Heap × HEntries)
  | h, [] => some (h, [])
  | h, (k, v) :: rest => do
      let (h1, v1) ← copyOne h v
      let (h2, rest1) ← copyBindingsWith copyOne h1 rest
      some (h2, (k, v1) :: rest1)

/-- Python `copy.deepcopy` on the heap: scalars are returned as they are,
and every reachable mutable object is rebuilt at fresh addresses.  (The
memo dictionary Python uses to preserve internal sharing inside the copy is
not modelled; it only changes the shape of the freshly allocated copy, which
the frame property never inspects.)  `cfuel` bounds the copied depth — a
model artifact standing in for the termination of `deepcopy` on the acyclic
values this library handles; exhausting it yields `Option.none`. -/
def deepcopyVal : Nat → Heap → HVal → Option (Heap × HVal)
  | _, h, HVal.scalar s => some (h, HVal.scalar s)
  | 0, _, HVal.ref _ => Option.none
  | cfuel + 1, h, HVal.ref a =>
      match h.objs a with
      | HObj.hlist xs => do
          let (h1, xs1) ← copyValsWith (fun hh vv => deepcopyVal cfuel hh vv) h xs
          some (heapAlloc h1 (HObj.hlist xs1))
      | HObj.hset xs => some (heapAlloc h (HObj.hset xs))
      | HObj.hdict es => do
          let (h1, es1) ← copyBindingsWith (fun hh vv => deepcopyVal cfuel hh vv) h es
          some (heapAlloc h1 (HObj.hdict es1))

/-- Outcome of a heap-level merge: normal return, a raised exception, or the
model artifact `stuck` (an ill-typed heap access or exhausted copy fuel,
neither of which occurs on well-formed inputs). -/
inductive HResult : Type where
  | hok : HResult
  | raised : MergeError → HResult
  | stuck : HResult
  deriving DecidableEq, Repr

/-- Deep-copy the source value and bind it to `k` in the target dictionary
object: `target[source_key] = copy.deepcopy(source_value)`.  The target
bindings `tes` are the ones read before the copy; the copy writes only to
fresh addresses, so the dictionary object is the same in between, exactly as
in Python. -/
def copyAndBind (cfuel : Nat) (h : Heap) (ta : Nat) (tes : HEntries)
    (k : PyScalar) (v : HVal) : HResult × Heap :=
  match deepcopyVal cfuel h v with
  | Option.none => (HResult.stuck, h)
  | some (h1, v1) => (HResult.hok, heapSet h1 ta (HObj.hdict (setKey tes k v1)))

/-- One iteration of the `for source_key, source_value in source.items()`
loop on the heap, the heap-level counterpart of `mergeValue`: branch on the
runtime type of the source value, then on the presence and runtime type of
the target value under the same key.  Lists are extended in place with the
source elements (reference-sharing, as `list.extend` does), sets are updated
in place, matching dictionaries are merged recursively through `recurse`,
and everything else is (deep-)copied in. -/
def mergeHeapStep (cfuel : Nat) (recurse : Heap → Nat → Nat → HResult × Heap)
    (h : Heap) (ta : Nat) (tes : HEntries) (k : PyScalar) (v : HVal) :
    HResult × Heap :=
  match v with
  | HVal.scalar s =>
      (HResult.hok, heapSet h ta (HObj.hdict (setKey tes k (HVal.scalar s))))
  | HVal.ref b =>
      match h.objs b with
      | HObj.hlist xs =>
          match getKey? tes k with
          | Option.none => copyAndBind cfuel h ta tes k (HVal.ref b)
          | some (HVal.ref c) =>
              match h.objs c with
              | HObj.hlist ys => (HResult.hok, heapSet h c (HObj.hlist (ys ++ xs)))
              | _ => copyAndBind cfuel h ta tes k (HVal.ref b)
          | some (HVal.scalar _) => copyAndBind cfuel h ta tes k (HVal.ref b)
      | HObj.hdict _ =>
          match getKey? tes k with
          | Option.none => copyAndBind cfuel h ta tes k (HVal.ref b)
          | some (HVal.ref c) =>
              match h.objs c with
              | HObj.hdict _ => recurse h c b
              | _ => copyAndBind cfuel h ta tes k (HVal.ref b)
          | some (HVal.scalar _) => copyAndBind cfuel h ta tes k (HVal.ref b)
      | HObj.hset xs =>
          match getKey? tes k with
          | Option.none =>
              match heapAlloc h (HObj.hset xs) with
              | (h1, v1) => (HResult.hok, heapSet h1 ta (HObj.hdict (setKey tes k v1)))
          | some (HVal.ref c) =>
              match h.objs c with
              | HObj.hset ys =>
                  (HResult.hok, heapSet h c (HObj.hset (setUpdate ys xs)))
              | _ => copyAndBind cfuel h ta tes k (HVal.ref b)
          | some (HVal.scalar _) => copyAndBind cfuel h ta tes k (HVal.ref b)

/-- The source-bindings loop on the heap.  The target dictionary object is
re-read at every iteration, since Python reads `target` live. -/
def mergeHeapLoop (cfuel : Nat) (recurse : Heap → Nat → Nat → HResult × Heap)
    (ta : Nat) : Heap → HEntries → HResult × Heap
  | h, [] => (HResult.hok, h)
  | h, (k, v) :: rest =>
      match h.objs ta with
      | HObj.hdict tes =>
          match mergeHeapStep cfuel recurse h ta tes k v with
          | (HResult.hok, h1) => mergeHeapLoop cfuel recurse ta h1 rest
          | (r, h1) => (r, h1)
      | _ => (HResult.stuck, h)

/-- Fuel-indexed heap merge; the fuel plays the role of
`MAX_RECURSION_DEPTH + 1 - recursion_depth` exactly as in the pure model,
running out being the depth guard.  An empty source clears the target
object in place.  The source bindings are snapshot at loop entry; Python
iterates the live dictionary, which coincides because the merge never
mutates the source — the statement proved below. -/
def mergeHeapFuel (cfuel : Nat) : Nat → Heap → Nat → Nat → HResult × Heap
  | 0, h, _, _ => (HResult.raised (MergeError.recursionError recursionErrorMessage), h)
  | fuel + 1, h, ta, sa =>
      match h.objs sa with
      | HObj.hdict [] => (HResult.hok, heapSet h ta (HObj.hdict []))
      | HObj.hdict (e :: ses) =>
          mergeHeapLoop cfuel (fun hh t s => mergeHeapFuel cfuel fuel hh t s) ta h
            (e :: ses)
      | _ => (HResult.stuck, h)

/-- Heap-level `dict_deep_update(target, source, recursion_depth)`: the
depth guard, the `None` checks, then the in-place merge of the dictionary
object at `ta` with the one at `sa`. -/
def dict_deep_update_heap (cfuel : Nat) (h : Heap) (target source : Option Nat)
    (recursion_depth : Int) : HResult × Heap :=
  let depth : Nat := recursion_depth.toNat
  if MAX_RECURSION_DEPTH < depth then
    (HResult.raised (MergeError.recursionError recursionErrorMessage), h)
  else
    match target, source with
    | Option.none, _ =>
        (HResult.raised (MergeError.valueError "Target dictionary is None."), h)
    | _, Option.none =>
        (HResult.raised (MergeError.valueError "Source dictionary is None."), h)
    | some ta, some sa => mergeHeapFuel cfuel (MAX_RECURSION_DEPTH + 1 - depth) h ta sa

/-- References held directly by an object (list elements, dict values). -/
def objRefs : HObj → List Nat
  | HObj.hlist xs =>
      xs.filterMap (fun v => match v with | HVal.ref b => some b | _ => Option.none)
  | HObj.hset _ => []
  | HObj.hdict es =>
      es.filterMap (fun kv => match kv.2 with | HVal.ref b => some b | _ => Option.none)

/-- The protected region is closed under the references its objects hold. -/
def RegionClosed (S : Nat → Prop) (h : Heap) : Prop :=
  ∀ a, S a → ∀ b, b ∈ objRefs (h.objs a) → S b

/-- Every protected address is allocated. -/
def SBound (S : Nat → Prop) (h : Heap) : Prop :=
  ∀ a, S a → a < h.next

/-- No object outside the protected region `S` holds a dictionary binding
that references an object inside `S` — the heap-level reading of "target
and source share no mutable substructure".  Lists outside the region may
hold references into it (the merge itself installs such references when it
extends a list), but the merge never descends through list elements, so
dictionary bindings are the only edges that matter. -/
def NoDictEdgesInto (S : Nat → Prop) (h : Heap) : Prop :=
  ∀ a, ¬S a → ∀ es, h.objs a = HObj.hdict es → ∀ k b, (k, HVal.ref b) ∈ es → ¬S b

/-- What every piece of the merge guarantees towards the protected region:
the region is byte-for-byte untouched, allocation only grows, and the
no-dict-edges invariant still holds. -/
def RegionSafeStep (S : Nat → Prop) (h h1 : Heap) : Prop :=
  (∀ a, S a → h1.objs a = h.objs a) ∧ h.next ≤ h1.next ∧ NoDictEdgesInto S h1

/-- Read a slot value back from the heap as a pure value (fuel-bounded). -/
def readVal : Nat → Heap → HVal → Option PyVal
  | _, _, HVal.scalar s => some (PyVal.scalar s)
  | 0, _, HVal.ref _ => Option.none
  | rfuel + 1, h, HVal.ref a =>
      match h.objs a with
      | HObj.hlist xs =>
          (xs.mapM (fun v => readVal rfuel h v)).map PyVal.pylist
      | HObj.hset xs => some (PyVal.pyset xs)
      | HObj.hdict es =>
          (es.mapM (fun kv => (readVal rfuel h kv.2).map (fun w => (kv.1, w)))).map
            PyVal.pydict

/-- Growth discipline of an allocating computation: objects already
allocated and objects beyond the final frontier are untouched, the frontier
only advances, and every dictionary allocated in the fresh range holds only
references at or above the lower bound `lo`. -/
def GrowsFresh (lo : Nat) (h h1 : Heap) : Prop :=
  (∀ a, a < h.next → h1.objs a = h.objs a) ∧
  (∀ a, h1.next ≤ a → h1.objs a = h.objs a) ∧
  h.next ≤ h1.next ∧
  (∀ a, h.next ≤ a → a < h1.next → ∀ es, h1.objs a = HObj.hdict es →
    ∀ k b, (k, HVal.ref b) ∈ es → lo ≤ b)

/-- Specification of a value-copying function: it only grows the heap with
fresh objects whose dictionary references sit at or above the pre-copy
frontier, and a returned reference is fresh. -/
def CopyOneSpec (copyOne : Heap → HVal → Option (Heap × HVal)) : Prop :=
  ∀ h v h1 v1, copyOne h v = some (h1, v1) →
    GrowsFresh h.next h h1 ∧
    (∀ b, v1 = HVal.ref b → h.next ≤ b ∧ b < h1.next)

/-- A two-object heap for the C9 witness: address 0 holds the source
dictionary, address 1 the target dictionary; they share no substructure. -/
def c9Heap : Heap :=
  ⟨fun a =>
    if a = 0 then HObj.hdict [(PyScalar.pystr "x", HVal.scalar (PyScalar.pyint 1))]
    else if a = 1 then
      HObj.hdict [(PyScalar.pystr "x", HVal.scalar (PyScalar.pyint 2)),
        (PyScalar.pystr "y", HVal.scalar (PyScalar.pyint 3))]
    else HObj.hdict [], 2⟩

/-! Helper lemmas about the dictionary primitives and the merge loop. -/
theorem setKey_cons_pos {A : Type} (k2 : PyScalar) (v2 : A) (rest : List (PyScalar × A))
    (k : PyScalar) (v : A) (h : k2 = k) : setKey ((k2, v2) :: rest) k v = (k, v) :: rest := by
  simp [setKey, h]

theorem setKey_cons_neg {A : Type} (k2 : PyScalar) (v2 : A) (rest : List (PyScalar × A))
    (k : PyScalar) (v : A) (h : ¬k2 = k) :
    setKey ((k2, v2) :: rest) k v = (k2, v2) :: setKey rest k v := by
  simp [setKey, h]

theorem containsKey_cons {A : Type} (k2 : PyScalar) (v2 : A) (rest : List (PyScalar × A))
    (k1 : PyScalar) :
    containsKey ((k2, v2) :: rest) k1 = (decide (k2 = k1) || containsKey rest k1) := rfl

theorem getKey?_cons {A : Type} (k2 : PyScalar) (v2 : A) (rest : List (PyScalar × A))
    (k1 : PyScalar) :
    getKey? ((k2, v2) :: rest) k1 = if k2 = k1 then some v2 else getKey? rest k1 := rfl

theorem containsKey_iff_getKey? {A : Type} (es : List (PyScalar × A)) (k : PyScalar) :
    containsKey es k = true ↔ ∃ v, getKey? es k = some v := by
  induction es with
  | nil => simp [containsKey, getKey?]
  | cons e rest ih =>
      obtain ⟨k1, v1⟩ := e
      by_cases h : k1 = k
      · subst h
        simp [containsKey, getKey?]
      · simp only [containsKey, List.any_cons] at ih ⊢
        simp [getKey?, h, Ne.symm h, ih]

theorem getKey?_eq_none_of_not_contains {A : Type} (es : List (PyScalar × A)) (k : PyScalar)
    (h : containsKey es k = false) : getKey? es k = Option.none := by
  cases hg : getKey? es k with
  | none => rfl
  | some v =>
      have := (containsKey_iff_getKey? es k).mpr ⟨v, hg⟩
      rw [h] at this
      cases this

theorem containsKey_setKey {A : Type} (es : List (PyScalar × A)) (k k1 : PyScalar) (v : A) :
    containsKey (setKey es k v) k1 = true ↔ (containsKey es k1 = true ∨ k1 = k) := by
  induction es with
  | nil =>
      rw [show setKey [] k v = [(k, v)] from rfl, containsKey_cons]
      by_cases h1 : k1 = k
      · simp [containsKey, h1]
      · simp [containsKey, h1, Ne.symm h1]
  | cons e rest ih =>
      obtain ⟨k2, v2⟩ := e
      by_cases h : k2 = k
      · rw [setKey_cons_pos k2 v2 rest k v h, containsKey_cons, containsKey_cons]
        subst h
        by_cases h1 : k1 = k2 <;> simp [h1]
      · rw [setKey_cons_neg k2 v2 rest k v h, containsKey_cons, containsKey_cons]
        by_cases h1 : k2 = k1 <;> simp [h1, ih]

theorem getKey?_setKey_self {A : Type} (es : List (PyScalar × A)) (k : PyScalar) (v : A) :
    getKey? (setKey es k v) k = some v := by
  induction es with
  | nil => simp [setKey, getKey?]
  | cons e rest ih =>
      obtain ⟨k2, v2⟩ := e
      by_cases h : k2 = k
      · subst h
        simp [setKey, getKey?]
      · simp [setKey, h, getKey?, ih]

theorem getKey?_setKey_other {A : Type} (es : List (PyScalar × A)) (k k1 : PyScalar) (v : A)
    (h : k1 ≠ k) : getKey? (setKey es k v) k1 = getKey? es k1 := by
  induction es with
  | nil => simp [setKey, getKey?, Ne.symm h]
  | cons e rest ih =>
      obtain ⟨k2, v2⟩ := e
      by_cases h2 : k2 = k
      · rw [setKey_cons_pos k2 v2 rest k v h2, getKey?_cons, getKey?_cons]
        have hb : ¬k2 = k1 := by rw [h2]; exact Ne.symm h
        simp [Ne.symm h, hb]
      · rw [setKey_cons_neg k2 v2 rest k v h2, getKey?_cons, getKey?_cons]
        by_cases h3 : k2 = k1 <;> simp [h3, ih]

theorem setKey_of_not_contains {A : Type} (es : List (PyScalar × A)) (k : PyScalar) (v : A)
    (h : containsKey es k = false) : setKey es k v = es ++ [(k, v)] := by
  induction es with
  | nil => simp [setKey]
  | cons e rest ih =>
      obtain ⟨k2, v2⟩ := e
      simp only [containsKey, List.any_cons, Bool.or_eq_false_iff] at h
      have h2 : k2 ≠ k := by
        intro hk
        subst hk
        simp at h
      simp only [containsKey] at ih
      simp [setKey, h2, ih h.2]

theorem containsKey_append {A : Type} (a b : List (PyScalar × A)) (k : PyScalar) :
    containsKey (a ++ b) k = (containsKey a k || containsKey b k) := by
  simp [containsKey, List.any_append]

/-- Every successful step of the merge loop rewrites exactly the binding of
the processed source key. -/
theorem mergeValue_shape (rec : Entries → Entries → Except MergeError Entries)
    (target : Entries) (k : PyScalar) (v : PyVal) (t1 : Entries)
    (h : mergeValue rec target k v = Except.ok t1) :
    ∃ w, t1 = setKey target k w := by
  cases v with
  | pylist xs =>
      cases hg : getKey? target k with
      | none =>
          simp [mergeValue, hg] at h
          exact ⟨_, h.symm⟩
      | some tv =>
          cases tv <;> simp [mergeValue, hg] at h <;> exact ⟨_, h.symm⟩
  | pydict es =>
      cases hg : getKey? target k with
      | none =>
          simp [mergeValue, hg] at h
          exact ⟨_, h.symm⟩
      | some tv =>
          cases tv with
          | pydict tes =>
              simp only [mergeValue, hg] at h
              cases hr : rec tes es with
              | error e => rw [hr] at h; cases h
              | ok merged =>
                  rw [hr] at h
                  simp only [Except.map] at h
                  cases h
                  exact ⟨_, rfl⟩
          | scalar s => simp [mergeValue, hg] at h; exact ⟨_, h.symm⟩
          | pylist xs => simp [mergeValue, hg] at h; exact ⟨_, h.symm⟩
          | pyset xs => simp [mergeValue, hg] at h; exact ⟨_, h.symm⟩
  | pyset xs =>
      cases hg : getKey? target k with
      | none =>
          simp [mergeValue, hg] at h
          exact ⟨_, h.symm⟩
      | some tv =>
          cases tv <;> simp [mergeValue, hg] at h <;> exact ⟨_, h.symm⟩
  | scalar s =>
      simp [mergeValue] at h
      exact ⟨_, h.symm⟩

/-- When the source key is absent from the target, every branch of the loop
body deep-copies the source value in unchanged. -/
theorem mergeValue_absent (rec : Entries → Entries → Except MergeError Entries)
    (target : Entries) (k : PyScalar) (v : PyVal)
    (hg : getKey? target k = Option.none) :
    mergeValue rec target k v = Except.ok (setKey target k v) := by
  cases v <;> simp [mergeValue, hg]

/-- On a source value that is a list, the loop body never fails and installs
the concatenation (prior target list first) when the prior target value is a
list, and the source list otherwise. -/
theorem mergeValue_pylist (rec : Entries → Entries → Except MergeError Entries)
    (target : Entries) (k : PyScalar) (xs : List PyVal) :
    mergeValue rec target k (PyVal.pylist xs) =
      Except.ok (setKey target k (PyVal.pylist
        (match getKey? target k with
         | some (PyVal.pylist ys) => ys ++ xs
         | _ => xs))) := by
  cases hg : getKey? target k with
  | none => simp [mergeValue, hg]
  | some tv => cases tv <;> simp [mergeValue, hg]

theorem mergeEntries_preserves_key (rec : Entries → Entries → Except MergeError Entries)
    (es : Entries) (target result : Entries) (k : PyScalar)
    (h : mergeEntries rec target es = Except.ok result)
    (hk : containsKey target k = true) : containsKey result k = true := by
  induction es generalizing target with
  | nil =>
      simp only [mergeEntries] at h
      cases h
      exact hk
  | cons e rest ih =>
      obtain ⟨k1, v1⟩ := e
      simp only [mergeEntries] at h
      cases hm : mergeValue rec target k1 v1 with
      | error e1 => rw [hm] at h; cases h
      | ok t1 =>
          rw [hm] at h
          obtain ⟨w, rfl⟩ := mergeValue_shape rec target k1 v1 t1 hm
          exact ih _ h ((containsKey_setKey target k1 k w).mpr (Or.inl hk))

theorem mergeEntries_adds_source_keys (rec : Entries → Entries → Except MergeError Entries)
    (es : Entries) (target result : Entries)
    (h : mergeEntries rec target es = Except.ok result) :
    ∀ kv ∈ es, containsKey result kv.1 = true := by
  induction es generalizing target with
  | nil => intro kv hkv; cases hkv
  | cons e rest ih =>
      intro kv hkv
      obtain ⟨k1, v1⟩ := e
      simp only [mergeEntries] at h
      cases hm : mergeValue rec target k1 v1 with
      | error e1 => rw [hm] at h; cases h
      | ok t1 =>
          rw [hm] at h
          obtain ⟨w, rfl⟩ := mergeValue_shape rec target k1 v1 t1 hm
          rcases List.mem_cons.mp hkv with h1 | h1
          · have hkk : kv.1 = k1 := by rw [h1]
            rw [hkk]
            exact mergeEntries_preserves_key rec rest _ result k1 h
              ((containsKey_setKey target k1 k1 w).mpr (Or.inr rfl))
          · exact ih _ h kv h1

theorem mergeEntries_other_key (rec : Entries → Entries → Except MergeError Entries)
    (es : Entries) (target result : Entries) (k : PyScalar)
    (hne : ∀ kv ∈ es, kv.1 ≠ k)
    (h : mergeEntries rec target es = Except.ok result) :
    getKey? result k = getKey? target k := by
  induction es generalizing target with
  | nil =>
      simp only [mergeEntries] at h
      cases h
      rfl
  | cons e rest ih =>
      obtain ⟨k1, v1⟩ := e
      simp only [mergeEntries] at h
      cases hm : mergeValue rec target k1 v1 with
      | error e1 => rw [hm] at h; cases h
      | ok t1 =>
          rw [hm] at h
          obtain ⟨w, rfl⟩ := mergeValue_shape rec target k1 v1 t1 hm
          have hk1 : k1 ≠ k := hne (k1, v1) (List.mem_cons_self _ _)
          rw [ih _ (fun kv hkv => hne kv (List.mem_cons_of_mem _ hkv)) h]
          exact getKey?_setKey_other target k1 k w (Ne.symm hk1)

/-- Merging a source whose keys are all absent from the target appends the
source bindings verbatim: each one is deep-copied in, and no recursive merge
happens. -/
theorem mergeEntries_all_absent (rec : Entries → Entries → Except MergeError Entries)
    (es : Entries) (target : Entries)
    (habs : ∀ kv ∈ es, containsKey target kv.1 = false)
    (hnodup : (es.map Prod.fst).Nodup) :
    mergeEntries rec target es = Except.ok (target ++ es) := by
  induction es generalizing target with
  | nil => simp [mergeEntries]
  | cons e rest ih =>
      obtain ⟨k1, v1⟩ := e
      have habs1 : containsKey target k1 = false := habs (k1, v1) (List.mem_cons_self _ _)
      have hg : getKey? target k1 = Option.none :=
        getKey?_eq_none_of_not_contains _ _ habs1
      simp only [List.map_cons, List.nodup_cons] at hnodup
      simp only [mergeEntries, mergeValue_absent rec target k1 v1 hg]
      rw [setKey_of_not_contains target k1 v1 habs1]
      have habs2 : ∀ kv ∈ rest, containsKey (target ++ [(k1, v1)]) kv.1 = false := by
        intro kv hkv
        rw [containsKey_append]
        have h1 : containsKey target kv.1 = false := habs kv (List.mem_cons_of_mem _ hkv)
        have h2 : kv.1 ≠ k1 := by
          intro hh
          exact hnodup.1 (hh ▸ List.mem_map_of_mem Prod.fst hkv)
        have h3 : containsKey [(k1, v1)] kv.1 = false := by
          simp [containsKey, Ne.symm h2]
        rw [h1, h3]
        rfl
      rw [ih _ habs2 hnodup.2, List.append_assoc, List.singleton_append]

/-- Unfolding `dict_deep_update` at the public call depth `0`: the available
fuel is `MAX_RECURSION_DEPTH + 1 = 9`. -/
theorem dict_deep_update_zero (t s : Entries) :
    dict_deep_update (some t) (some s) 0 = dictDeepUpdateFuel 9 t s := rfl

/-- Unfolding the fuel-indexed core on a non-empty source. -/
theorem dictDeepUpdateFuel_cons (fuel : Nat) (t : Entries) (k : PyScalar) (v : PyVal)
    (rest : Entries) :
    dictDeepUpdateFuel (fuel + 1) t ((k, v) :: rest) =
      mergeEntries (fun a b => dictDeepUpdateFuel fuel a b) t ((k, v) :: rest) := rfl

/-- Merging the `n`-fold nested chain into itself succeeds exactly when the
chain is shorter than the available fuel, and raises the `RecursionError`
otherwise. -/
theorem dictDeepUpdateFuel_nestedDict (n : Nat) : ∀ fuel : Nat,
    dictDeepUpdateFuel fuel (nestedDict n) (nestedDict n) =
      if n < fuel then Except.ok (nestedDict n)
      else Except.error (MergeError.recursionError recursionErrorMessage) := by
  induction n with
  | zero =>
      intro fuel
      cases fuel with
      | zero => simp [dictDeepUpdateFuel]
      | succ f =>
          simp [dictDeepUpdateFuel, nestedDict, mergeEntries, mergeValue, getKey?, setKey]
  | succ n ih =>
      intro fuel
      cases fuel with
      | zero => simp [dictDeepUpdateFuel]
      | succ f =>
          rw [show nestedDict (n + 1) =
            [(PyScalar.pystr "k", PyVal.pydict (nestedDict n))] from rfl]
          rw [dictDeepUpdateFuel_cons]
          by_cases h : n < f <;>
            simp [mergeEntries, mergeValue, getKey?, setKey, ih f, h,
              Nat.succ_lt_succ_iff, Except.map]

/-- The value stored for a source key holding a list, tracked through the
whole merge loop: the target prior list extended by the source list if the
prior value was a list, the source list otherwise. -/
theorem mergeEntries_pylist_value (rec : Entries → Entries → Except MergeError Entries)
    (es : Entries) (target result : Entries)
    (hnodup : (es.map Prod.fst).Nodup)
    (h : mergeEntries rec target es = Except.ok result) :
    ∀ k xs, getKey? es k = some (PyVal.pylist xs) →
      getKey? result k = some (PyVal.pylist
        (match getKey? target k with
         | some (PyVal.pylist ys) => ys ++ xs
         | _ => xs)) := by
  induction es generalizing target with
  | nil => intro k xs hks; cases hks
  | cons e rest ih =>
      intro k xs hks
      obtain ⟨k1, v1⟩ := e
      simp only [List.map_cons, List.nodup_cons] at hnodup
      rw [getKey?_cons] at hks
      simp only [mergeEntries] at h
      by_cases hk : k1 = k
      · rw [if_pos hk] at hks
        injection hks with hv
        subst hv
        subst hk
        simp only [mergeValue_pylist rec target k1 xs] at h
        have hrest : ∀ kv ∈ rest, kv.1 ≠ k1 := by
          intro kv hkv hh
          exact hnodup.1 (hh ▸ List.mem_map_of_mem Prod.fst hkv)
        rw [mergeEntries_other_key rec rest _ result k1 hrest h]
        rw [getKey?_setKey_self]
      · rw [if_neg hk] at hks
        cases hm : mergeValue rec target k1 v1 with
        | error e1 => rw [hm] at h; cases h
        | ok t1 =>
            rw [hm] at h
            obtain ⟨w, rfl⟩ := mergeValue_shape rec target k1 v1 t1 hm
            have hgt : getKey? (setKey target k1 w) k = getKey? target k :=
              getKey?_setKey_other target k1 k w (Ne.symm hk)
            have hres := ih _ hnodup.2 h k xs hks
            rw [hgt] at hres
            exact hres

/-- Claim C2, counterexample: on the concrete target with key `a` and the
empty source, `dict_deep_update` succeeds but clears the target, so a key
that was present in the target before the call is not present afterwards. -/
theorem C2_counterexample :
    dict_deep_update (some [(PyScalar.pystr "a", PyVal.scalar (PyScalar.pyint 1))])
        (some []) 0 = Except.ok [] ∧
      containsKey ([] : Entries) (PyScalar.pystr "a") = false := ⟨rfl, rfl⟩

/-- Claim C2 (amended): for every target mapping and every NON-EMPTY source
mapping (with well-formed, duplicate-free keys), after a successful
`dict_deep_update(target, source)` every key present in either input is
present in the result, and every key whose source value is a list maps to
the target prior list concatenated with the source list (target elements
first) when the prior target value was a list, and to the source list
otherwise.  The empty source is the exception: it clears the target. -/
theorem C2_merge_presence_and_list_concat (target source result : Entries)
    (hne : source ≠ [])
    (hnodup : (source.map Prod.fst).Nodup)
    (hok : dict_deep_update (some target) (some source) 0 = Except.ok result) :
    (∀ k, containsKey target k = true → containsKey result k = true) ∧
    (∀ kv ∈ source, containsKey result kv.1 = true) ∧
    (∀ k xs, getKey? source k = some (PyVal.pylist xs) →
      getKey? result k = some (PyVal.pylist
        (match getKey? target k with
         | some (PyVal.pylist ys) => ys ++ xs
         | _ => xs))) := by
  rw [dict_deep_update_zero] at hok
  cases source with
  | nil => exact absurd rfl hne
  | cons e rest =>
      obtain ⟨k0, v0⟩ := e
      rw [show (9 : Nat) = 8 + 1 from rfl, dictDeepUpdateFuel_cons] at hok
      refine ⟨?_, ?_, ?_⟩
      · intro k hk
        exact mergeEntries_preserves_key _ _ _ _ _ hok hk
      · intro kv hkv
        exact mergeEntries_adds_source_keys _ _ _ _ hok kv hkv
      · intro k xs hks
        exact mergeEntries_pylist_value _ _ _ _ hnodup hok k xs hks

/-- Witness for the amended claim C2, at the concrete merge of
`a: 1, k: [1, 2]` with source `k: [3], b: 4`. -/
theorem C2_merge_presence_and_list_concat_witness :
    containsKey
      [(PyScalar.pystr "a", PyVal.scalar (PyScalar.pyint 1)),
       (PyScalar.pystr "k", PyVal.pylist [PyVal.scalar (PyScalar.pyint 1),
         PyVal.scalar (PyScalar.pyint 2), PyVal.scalar (PyScalar.pyint 3)]),
       (PyScalar.pystr "b", PyVal.scalar (PyScalar.pyint 4))]
      (PyScalar.pystr "a") = true ∧
    getKey?
      [(PyScalar.pystr "a", PyVal.scalar (PyScalar.pyint 1)),
       (PyScalar.pystr "k", PyVal.pylist [PyVal.scalar (PyScalar.pyint 1),
         PyVal.scalar (PyScalar.pyint 2), PyVal.scalar (PyScalar.pyint 3)]),
       (PyScalar.pystr "b", PyVal.scalar (PyScalar.pyint 4))]
      (PyScalar.pystr "k") = some (PyVal.pylist [PyVal.scalar (PyScalar.pyint 1),
        PyVal.scalar (PyScalar.pyint 2), PyVal.scalar (PyScalar.pyint 3)]) := by
  have h := C2_merge_presence_and_list_concat
    [(PyScalar.pystr "a", PyVal.scalar (PyScalar.pyint 1)),
     (PyScalar.pystr "k", PyVal.pylist [PyVal.scalar (PyScalar.pyint 1),
       PyVal.scalar (PyScalar.pyint 2)])]
    [(PyScalar.pystr "k", PyVal.pylist [PyVal.scalar (PyScalar.pyint 3)]),
     (PyScalar.pystr "b", PyVal.scalar (PyScalar.pyint 4))]
    [(PyScalar.pystr "a", PyVal.scalar (PyScalar.pyint 1)),
     (PyScalar.pystr "k", PyVal.pylist [PyVal.scalar (PyScalar.pyint 1),
       PyVal.scalar (PyScalar.pyint 2), PyVal.scalar (PyScalar.pyint 3)]),
     (PyScalar.pystr "b", PyVal.scalar (PyScalar.pyint 4))]
    (by simp) (by decide) (by rfl)
  refine ⟨h.1 (PyScalar.pystr "a") (by rfl), ?_⟩
  have h3 := h.2.2 (PyScalar.pystr "k") [PyVal.scalar (PyScalar.pyint 3)] (by rfl)
  simpa using h3

/-- Claim C4: merging an empty source into any (non-`None`) target clears
the target completely; in particular both spec examples follow by taking
`target = values of the examples`. -/
theorem C4_empty_source_clears (target : Entries) :
    dict_deep_update (some target) (some []) 0 = Except.ok [] := rfl

/-- Claim C5: merging a source mapping (with well-formed, duplicate-free
keys) into an empty target yields exactly that mapping — deep copy equality
is plain equality on these pure values. -/
theorem C5_merge_into_empty_target (source : Entries)
    (hnodup : (source.map Prod.fst).Nodup) :
    dict_deep_update (some []) (some source) 0 = Except.ok source := by
  rw [dict_deep_update_zero]
  cases source with
  | nil => rfl
  | cons e rest =>
      obtain ⟨k0, v0⟩ := e
      rw [show (9 : Nat) = 8 + 1 from rfl, dictDeepUpdateFuel_cons]
      rw [mergeEntries_all_absent _ _ ([] : Entries) (fun kv _ => rfl) hnodup]
      rw [List.nil_append]

/-- Witness for claim C5 at a source nested twelve mapping levels deep. -/
theorem C5_merge_into_empty_target_witness :
    dict_deep_update (some []) (some (nestedDict 12)) 0 =
      Except.ok (nestedDict 12) :=
  C5_merge_into_empty_target (nestedDict 12) (by decide)

/-- Claim C10: whatever the nesting depth of the source, the merge succeeds
whenever the target binds none of the source keys, because such values are
deep-copied in without recursing (well-formed duplicate-free source keys). -/
theorem C10_absent_keys_merge_succeeds (target source : Entries)
    (hnodup : (source.map Prod.fst).Nodup)
    (habs : ∀ kv ∈ source, containsKey target kv.1 = false) :
    ∃ r, dict_deep_update (some target) (some source) 0 = Except.ok r := by
  rw [dict_deep_update_zero]
  cases source with
  | nil => exact ⟨[], rfl⟩
  | cons e rest =>
      obtain ⟨k0, v0⟩ := e
      rw [show (9 : Nat) = 8 + 1 from rfl, dictDeepUpdateFuel_cons]
      exact ⟨_, mergeEntries_all_absent _ _ _ habs hnodup⟩

/-- Witness for claim C10: a twenty-level source merged into a target that
lacks its key succeeds, far beyond the recursion ceiling of 8. -/
theorem C10_absent_keys_merge_succeeds_witness :
    ∃ r, dict_deep_update
      (some [(PyScalar.pystr "other", PyVal.scalar (PyScalar.pyint 7))])
      (some (nestedDict 20)) 0 = Except.ok r :=
  C10_absent_keys_merge_succeeds _ _ (by decide) (by decide)

/-- Claim C3: merging mappings nested `n` levels deep (below the top level)
into a matching target raises the `RecursionError` exactly when `n` exceeds
`MAX_RECURSION_DEPTH = 8`, and succeeds when `n` is at most 8 — in
particular at exactly 8 levels. -/
theorem C3_recursion_depth_ceiling (n : Nat) :
    (n ≤ MAX_RECURSION_DEPTH →
      dict_deep_update (some (nestedDict n)) (some (nestedDict n)) 0 =
        Except.ok (nestedDict n)) ∧
    (MAX_RECURSION_DEPTH < n →
      dict_deep_update (some (nestedDict n)) (some (nestedDict n)) 0 =
        Except.error (MergeError.recursionError recursionErrorMessage)) := by
  constructor
  · intro h
    rw [dict_deep_update_zero, dictDeepUpdateFuel_nestedDict n 9, if_pos ?_]
    simp only [MAX_RECURSION_DEPTH] at h
    omega
  · intro h
    rw [dict_deep_update_zero, dictDeepUpdateFuel_nestedDict n 9, if_neg ?_]
    simp only [MAX_RECURSION_DEPTH] at h
    omega

/-- Witness for claim C3 at exactly 8 and at 9 nested mapping levels. -/
theorem C3_recursion_depth_ceiling_witness :
    dict_deep_update (some (nestedDict 8)) (some (nestedDict 8)) 0 =
        Except.ok (nestedDict 8) ∧
      dict_deep_update (some (nestedDict 9)) (some (nestedDict 9)) 0 =
        Except.error (MergeError.recursionError recursionErrorMessage) :=
  ⟨(C3_recursion_depth_ceiling 8).1 (by decide),
   (C3_recursion_depth_ceiling 9).2 (by decide)⟩

/-- Claim C6: the detector returns exactly the tabulated format for each
tabulated suffix, case-insensitively, and `unknown` for every other suffix;
being a pure function of the suffix, it performs no input / output and has
no side effects. -/
theorem C6_format_detector_table (suffix : String) :
    (asciiLower suffix ∈ ([".json", ".jsn"] : List String) →
      _determine_config_file_type suffix = ConfigDataTypes.json) ∧
    (asciiLower suffix ∈ ([".toml", ".tml", ".ini", ".config", ".cfg"] : List String) →
      _determine_config_file_type suffix = ConfigDataTypes.toml) ∧
    (asciiLower suffix ∈ ([".yaml", ".yml"] : List String) →
      _determine_config_file_type suffix = ConfigDataTypes.yaml) ∧
    (asciiLower suffix ∉ ([".json", ".jsn", ".toml", ".tml", ".ini", ".config", ".cfg",
        ".yml", ".yaml"] : List String) →
      _determine_config_file_type suffix = ConfigDataTypes.unknown) := by
  refine ⟨fun h => ?_, fun h => ?_, fun h => ?_, fun h => ?_⟩
  · simp only [List.mem_cons, List.not_mem_nil, or_false] at h
    unfold _determine_config_file_type
    rcases h with h | h <;> rw [h] <;> decide
  · simp only [List.mem_cons, List.not_mem_nil, or_false] at h
    unfold _determine_config_file_type
    rcases h with h | h | h | h | h <;> rw [h] <;> decide
  · simp only [List.mem_cons, List.not_mem_nil, or_false] at h
    unfold _determine_config_file_type
    rcases h with h | h <;> rw [h] <;> decide
  · simp only [List.mem_cons, List.not_mem_nil, or_false] at h
    push_neg at h
    obtain ⟨h1, h2, h3, h4, h5, h6, h7, h8, h9⟩ := h
    have hj : asciiLower suffix ∉ ([".json", ".jsn"] : List String) := by
      simp [List.mem_cons, h1, h2]
    have ht : asciiLower suffix ∉ ([".toml", ".tml", ".ini", ".config", ".cfg"] : List String) := by
      simp [List.mem_cons, h3, h4, h5, h6, h7]
    have hy : asciiLower suffix ∉ ([".yml", ".yaml"] : List String) := by
      simp [List.mem_cons, h8, h9]
    unfold _determine_config_file_type
    rw [if_neg hj, if_neg ht, if_neg hy]

/-- Witness for claim C6, covering one suffix of each table row
(case-insensitively) and an unknown suffix. -/
theorem C6_format_detector_table_witness :
    _determine_config_file_type ".JSON" = ConfigDataTypes.json ∧
    _determine_config_file_type ".CoNfIg" = ConfigDataTypes.toml ∧
    _determine_config_file_type ".yml" = ConfigDataTypes.yaml ∧
    _determine_config_file_type ".xyz" = ConfigDataTypes.unknown :=
  ⟨(C6_format_detector_table ".JSON").1 (by decide),
   (C6_format_detector_table ".CoNfIg").2.1 (by decide),
   (C6_format_detector_table ".yml").2.2.1 (by decide),
   (C6_format_detector_table ".xyz").2.2.2 (by decide)⟩

/-- Claim C7: `load_dict_from_file` raises the `None`-input value error, the
not-found error, the is-a-directory error and the size-limit error as four
distinguishable error kinds; each equation holds for every backend triple,
so the errors are raised before any parsing is attempted. -/
theorem C7_pre_parse_errors (backends : Backends) (data_type : ConfigDataTypes)
    (max_file_size : Nat) (p : PathInfo) :
    (load_dict_from_file backends Option.none data_type max_file_size =
      Except.error LoadError.valueErrorNoneInput) ∧
    (p.is_file = false → p.existsOnDisk = false →
      load_dict_from_file backends (some (FilePathOrBuffer.path p)) data_type
        max_file_size = Except.error (LoadError.fileNotFound p.name)) ∧
    (p.is_file = false → p.existsOnDisk = true → p.is_dir = true →
      load_dict_from_file backends (some (FilePathOrBuffer.path p)) data_type
        max_file_size = Except.error (LoadError.isADirectory p.name)) ∧
    (p.is_file = true → max_file_size < p.size →
      load_dict_from_file backends (some (FilePathOrBuffer.path p)) data_type
        max_file_size =
        Except.error (LoadError.valueErrorFileSize p.name p.size max_file_size)) := by
  refine ⟨rfl, fun h1 h2 => ?_, fun h1 h2 h3 => ?_, fun h1 h2 => ?_⟩
  · simp [load_dict_from_file, h1, h2, Except.bind]
  · simp [load_dict_from_file, h1, h2, h3, Except.bind]
  · simp [load_dict_from_file, h1, h2, gt_iff_lt, Except.bind]

/-- Witness for claim C7 at concrete paths and ceiling 1000. -/
theorem C7_pre_parse_errors_witness :
    load_dict_from_file witnessBackends Option.none ConfigDataTypes.infer 1000 =
      Except.error LoadError.valueErrorNoneInput ∧
    load_dict_from_file witnessBackends (some (FilePathOrBuffer.path missingPathW))
      ConfigDataTypes.infer 1000 = Except.error (LoadError.fileNotFound "missing.json") ∧
    load_dict_from_file witnessBackends (some (FilePathOrBuffer.path dirPathW))
      ConfigDataTypes.infer 1000 = Except.error (LoadError.isADirectory "somedir") ∧
    load_dict_from_file witnessBackends (some (FilePathOrBuffer.path bigPathW))
      ConfigDataTypes.infer 1000 =
      Except.error (LoadError.valueErrorFileSize "big.json" 2000 1000) :=
  ⟨(C7_pre_parse_errors witnessBackends ConfigDataTypes.infer 1000 missingPathW).1,
   (C7_pre_parse_errors witnessBackends ConfigDataTypes.infer 1000 missingPathW).2.1
     rfl rfl,
   (C7_pre_parse_errors witnessBackends ConfigDataTypes.infer 1000 dirPathW).2.2.1
     rfl rfl rfl,
   (C7_pre_parse_errors witnessBackends ConfigDataTypes.infer 1000 bigPathW).2.2.2
     rfl (by decide)⟩

/-- Claim C1, counterexample: on a `.json` file whose content the TOML
backend rejects and the JSON backend accepts, `load_dict_from_file` with
declared format `toml` raises the `DictLoadError` built from the TOML
backend error — it does not fail soft and fall back to the JSON parser, so
it does not return the JSON mapping as the claim states. -/
theorem C1_counterexample :
    load_dict_from_file jsonContentBackends (some (FilePathOrBuffer.path exampleJsonPath))
        ConfigDataTypes.toml MAX_CONFIG_FILE_SIZE =
      Except.error (LoadError.dictLoad
        ⟨"Key name found without value. Reached end of line.",
         some "json text", some 3, some 1, some 4⟩) ∧
    load_dict_from_file jsonContentBackends (some (FilePathOrBuffer.path exampleJsonPath))
        ConfigDataTypes.toml MAX_CONFIG_FILE_SIZE ≠ Except.ok exampleJsonEntries := by
  have h1 : load_dict_from_file jsonContentBackends
      (some (FilePathOrBuffer.path exampleJsonPath))
      ConfigDataTypes.toml MAX_CONFIG_FILE_SIZE =
      Except.error (LoadError.dictLoad
        ⟨"Key name found without value. Reached end of line.",
         some "json text", some 3, some 1, some 4⟩) := rfl
  refine ⟨h1, fun hcontra => ?_⟩
  rw [h1] at hcontra
  exact Except.noConfusion hcontra

/-- Claim C1 (amended): on an existing, size-admissible file declared as
`toml` whose content the TOML backend rejects (even if the JSON backend
accepts it), the TOML parser is tried first and its failure is raised hard
as a `DictLoadError` carrying the TOML backend error: the declared format
matches the failing parser, so there is no soft failure and no JSON
fallback.  Fallback happens only for parsers whose format differs from the
declared / effective format. -/
theorem C1_declared_toml_raises_hard (backends : Backends) (p : PathInfo)
    (e : BackendParseError) (d : Entries)
    (hfile : p.is_file = true) (hsize : p.size ≤ MAX_CONFIG_FILE_SIZE)
    (htoml : backends.tomlLoads p.content = Except.error e)
    (_hjson : backends.jsonLoads p.content = Except.ok d) :
    load_dict_from_file backends (some (FilePathOrBuffer.path p)) ConfigDataTypes.toml
      MAX_CONFIG_FILE_SIZE =
      Except.error (LoadError.dictLoad
        ⟨e.msg, some e.doc, some e.pos, some e.lineno, some e.colno⟩) := by
  have hns : ¬(p.size > MAX_CONFIG_FILE_SIZE) := by omega
  simp [load_dict_from_file, hfile, hns, tryResolveOrder,
    _load_dict_from_toml_stream_or_file, contentOf, htoml, Except.bind]

/-- Witness for the amended claim C1 at the concrete scenario data. -/
theorem C1_declared_toml_raises_hard_witness :
    load_dict_from_file jsonContentBackends (some (FilePathOrBuffer.path exampleJsonPath))
        ConfigDataTypes.toml MAX_CONFIG_FILE_SIZE =
      Except.error (LoadError.dictLoad
        ⟨exampleTomlError.msg, some exampleTomlError.doc, some exampleTomlError.pos,
         some exampleTomlError.lineno, some exampleTomlError.colno⟩) :=
  C1_declared_toml_raises_hard jsonContentBackends exampleJsonPath exampleTomlError
    exampleJsonEntries rfl (by decide) rfl rfl

/-- Claim C8: during multi-source loading, a path source whose `is_file`
check fails is skipped with no effect under every valid error-handling
policy — the loader behaves as if the source were absent from the list. -/
theorem C8_missing_path_source_skipped (backends : Backends)
    (data_type : ConfigDataTypes) (eh : String) (p : PathInfo)
    (rest : List FilePathOrBuffer)
    (hpolicy : eh ∈ allowed_error_handling) (hnofile : p.is_file = false) :
    _settings_config_load backends (some (FilePathOrBuffer.path p :: rest)) data_type
        (some eh) =
      _settings_config_load backends (some rest) data_type (some eh) := by
  simp [_settings_config_load, hpolicy, sclLoop, hnofile]

/-- Witness for claim C8: with policy `ignore`, a non-existent first source
followed by a valid one returns exactly the valid source mapping. -/
theorem C8_missing_path_source_skipped_witness :
    _settings_config_load c8Backends
      (some [FilePathOrBuffer.path missingPathW, FilePathOrBuffer.path validPathW])
      ConfigDataTypes.infer (some "ignore") = SclResult.ok secondEntries :=
  Eq.trans
    (C8_missing_path_source_skipped c8Backends ConfigDataTypes.infer "ignore"
      missingPathW [FilePathOrBuffer.path validPathW] (by decide) rfl)
    rfl

theorem growsFresh_refl (lo : Nat) (h : Heap) : GrowsFresh lo h h := by
  refine ⟨fun _ _ => rfl, fun _ _ => rfl, Nat.le_refl _, ?_⟩
  intro a ha hb
  exact absurd hb (Nat.not_lt.mpr ha)

theorem growsFresh_trans (lo : Nat) (h h1 h2 : Heap)
    (g1 : GrowsFresh lo h h1) (g2 : GrowsFresh lo h1 h2) : GrowsFresh lo h h2 := by
  obtain ⟨b1, u1, m1, f1⟩ := g1
  obtain ⟨b2, u2, m2, f2⟩ := g2
  refine ⟨?_, ?_, Nat.le_trans m1 m2, ?_⟩
  · intro a ha
    rw [b2 a (Nat.lt_of_lt_of_le ha m1), b1 a ha]
  · intro a ha
    rw [u2 a ha, u1 a (Nat.le_trans m2 ha)]
  · intro a halo hahi es hes k b hmem
    by_cases hcase : a < h1.next
    · exact f1 a halo hcase es (by rw [← b2 a hcase, hes]) k b hmem
    · exact f2 a (Nat.le_of_not_lt hcase) hahi es hes k b hmem

theorem heapAlloc_growsFresh (lo : Nat) (h : Heap) (o : HObj)
    (ho : ∀ es, o = HObj.hdict es → ∀ k b, (k, HVal.ref b) ∈ es → lo ≤ b) :
    GrowsFresh lo h (heapAlloc h o).1 := by
  refine ⟨?_, ?_, ?_, ?_⟩
  · intro a ha
    show (if a = h.next then o else h.objs a) = h.objs a
    rw [if_neg (by omega)]
  · intro a ha
    show (if a = h.next then o else h.objs a) = h.objs a
    have : (heapAlloc h o).1.next = h.next + 1 := rfl
    rw [if_neg (by rw [this] at ha; omega)]
  · show h.next ≤ h.next + 1
    omega
  · intro a halo hahi es hes k b hmem
    have ha : a = h.next := by
      have : (heapAlloc h o).1.next = h.next + 1 := rfl
      rw [this] at hahi
      omega
    have hobj : (heapAlloc h o).1.objs a = o := by
      show (if a = h.next then o else h.objs a) = o
      rw [if_pos ha]
    rw [hobj] at hes
    exact ho es hes k b hmem

theorem growsFresh_weaken (lo lo1 : Nat) (h h1 : Heap) (hle : lo ≤ lo1)
    (g : GrowsFresh lo1 h h1) : GrowsFresh lo h h1 :=
  ⟨g.1, g.2.1, g.2.2.1, fun a ha hb es hes k b hmem =>
    Nat.le_trans hle (g.2.2.2 a ha hb es hes k b hmem)⟩

theorem copyValsWith_spec (copyOne : Heap → HVal → Option (Heap × HVal))
    (hone : CopyOneSpec copyOne) :
    ∀ (xs : List HVal) (h h1 : Heap) (xs1 : List HVal),
      copyValsWith copyOne h xs = some (h1, xs1) →
      GrowsFresh h.next h h1 ∧
      (∀ w ∈ xs1, ∀ b, w = HVal.ref b → h.next ≤ b ∧ b < h1.next) := by
  intro xs
  induction xs with
  | nil =>
      intro h h1 xs1 hrun
      simp only [copyValsWith] at hrun
      cases hrun
      exact ⟨growsFresh_refl _ _, by intro w hw; cases hw⟩
  | cons v rest ih =>
      intro h h1 xs1 hrun
      simp only [copyValsWith] at hrun
      cases hc : copyOne h v with
      | none => simp [hc] at hrun
      | some p =>
          obtain ⟨h2, v1⟩ := p
          rw [hc] at hrun
          simp only [Option.bind_eq_bind, Option.some_bind] at hrun
          cases hr : copyValsWith copyOne h2 rest with
          | none => simp [hr] at hrun
          | some q =>
              obtain ⟨h3, rest1⟩ := q
              rw [hr] at hrun
              simp only [Option.some_bind] at hrun
              cases hrun
              obtain ⟨g1, hv1⟩ := hone h v h2 v1 hc
              obtain ⟨g2, hrest1⟩ := ih h2 h1 rest1 hr
              have gtot : GrowsFresh h.next h h1 :=
                growsFresh_trans _ _ _ _ g1
                  (growsFresh_weaken _ _ _ _ g1.2.2.1 g2)
              refine ⟨gtot, ?_⟩
              intro w hw b hb
              rcases List.mem_cons.mp hw with hw1 | hw1
              · subst hw1
                obtain ⟨hlo, hhi⟩ := hv1 b hb
                exact ⟨hlo, Nat.lt_of_lt_of_le hhi g2.2.2.1⟩
              · obtain ⟨hlo, hhi⟩ := hrest1 w hw1 b hb
                exact ⟨Nat.le_trans g1.2.2.1 hlo, hhi⟩

theorem copyBindingsWith_spec (copyOne : Heap → HVal → Option (Heap × HVal))
    (hone : CopyOneSpec copyOne) :
    ∀ (es : HEntries) (h h1 : Heap) (es1 : HEntries),
      copyBindingsWith copyOne h es = some (h1, es1) →
      GrowsFresh h.next h h1 ∧
      (∀ kv ∈ es1, ∀ b, kv.2 = HVal.ref b → h.next ≤ b ∧ b < h1.next) := by
  intro es
  induction es with
  | nil =>
      intro h h1 es1 hrun
      simp only [copyBindingsWith] at hrun
      cases hrun
      exact ⟨growsFresh_refl _ _, by intro w hw; cases hw⟩
  | cons kv rest ih =>
      intro h h1 es1 hrun
      obtain ⟨k, v⟩ := kv
      simp only [copyBindingsWith] at hrun
      cases hc : copyOne h v with
      | none => simp [hc] at hrun
      | some p =>
          obtain ⟨h2, v1⟩ := p
          rw [hc] at hrun
          simp only [Option.bind_eq_bind, Option.some_bind] at hrun
          cases hr : copyBindingsWith copyOne h2 rest with
          | none => simp [hr] at hrun
          | some q =>
              obtain ⟨h3, rest1⟩ := q
              rw [hr] at hrun
              simp only [Option.some_bind] at hrun
              cases hrun
              obtain ⟨g1, hv1⟩ := hone h v h2 v1 hc
              obtain ⟨g2, hrest1⟩ := ih h2 h1 rest1 hr
              have gtot : GrowsFresh h.next h h1 :=
                growsFresh_trans _ _ _ _ g1
                  (growsFresh_weaken _ _ _ _ g1.2.2.1 g2)
              refine ⟨gtot, ?_⟩
              intro w hw b hb
              rcases List.mem_cons.mp hw with hw1 | hw1
              · subst hw1
                obtain ⟨hlo, hhi⟩ := hv1 b hb
                exact ⟨hlo, Nat.lt_of_lt_of_le hhi g2.2.2.1⟩
              · obtain ⟨hlo, hhi⟩ := hrest1 w hw1 b hb
                exact ⟨Nat.le_trans g1.2.2.1 hlo, hhi⟩

theorem heapAlloc_pair (h : Heap) (o : HObj) :
    heapAlloc h o = ((heapAlloc h o).1, HVal.ref h.next) := rfl

theorem heapAlloc_next (h : Heap) (o : HObj) :
    (heapAlloc h o).1.next = h.next + 1 := rfl

theorem deepcopyVal_spec : ∀ cfuel : Nat, CopyOneSpec (deepcopyVal cfuel) := by
  intro cfuel
  induction cfuel with
  | zero =>
      intro h v h1 v1 hrun
      cases v with
      | scalar s =>
          simp only [deepcopyVal] at hrun
          cases hrun
          exact ⟨growsFresh_refl _ _, by intro b hb; cases hb⟩
      | ref a => simp [deepcopyVal] at hrun
  | succ cfuel ih =>
      intro h v h1 v1 hrun
      cases v with
      | scalar s =>
          simp only [deepcopyVal] at hrun
          cases hrun
          exact ⟨growsFresh_refl _ _, by intro b hb; cases hb⟩
      | ref a =>
          simp only [deepcopyVal] at hrun
          split at hrun
          next xs heq =>
              cases hc : copyValsWith (fun hh vv => deepcopyVal cfuel hh vv) h xs with
              | none => simp [hc] at hrun
              | some p =>
                  obtain ⟨h2, xs1⟩ := p
                  rw [hc] at hrun
                  simp only [Option.bind_eq_bind, Option.some_bind] at hrun
                  rw [heapAlloc_pair] at hrun
                  cases hrun
                  obtain ⟨g, hfresh⟩ := copyValsWith_spec _ ih xs h h2 xs1 hc
                  constructor
                  · exact growsFresh_trans _ _ _ _ g
                      (heapAlloc_growsFresh h.next h2 (HObj.hlist xs1)
                        (by intro es hes; cases hes))
                  · intro b hb
                    injection hb with hb1
                    cases hb1
                    refine ⟨g.2.2.1, ?_⟩
                    rw [heapAlloc_next]
                    omega
          next xs heq =>
              rw [heapAlloc_pair] at hrun
              cases hrun
              constructor
              · exact heapAlloc_growsFresh h.next h (HObj.hset xs)
                  (by intro es hes; cases hes)
              · intro b hb
                injection hb with hb1
                cases hb1
                refine ⟨Nat.le_refl _, ?_⟩
                rw [heapAlloc_next]
                omega
          next es heq =>
              cases hc : copyBindingsWith (fun hh vv => deepcopyVal cfuel hh vv) h es with
              | none => simp [hc] at hrun
              | some p =>
                  obtain ⟨h2, es1⟩ := p
                  rw [hc] at hrun
                  simp only [Option.bind_eq_bind, Option.some_bind] at hrun
                  rw [heapAlloc_pair] at hrun
                  cases hrun
                  obtain ⟨g, hfresh⟩ := copyBindingsWith_spec _ ih es h h2 es1 hc
                  constructor
                  · refine growsFresh_trans _ _ _ _ g
                      (heapAlloc_growsFresh h.next h2 (HObj.hdict es1) ?_)
                    intro es0 hes0 k b hmem
                    injection hes0 with hes1
                    rw [← hes1] at hmem
                    exact (hfresh (k, HVal.ref b) hmem b rfl).1
                  · intro b hb
                    injection hb with hb1
                    cases hb1
                    refine ⟨g.2.2.1, ?_⟩
                    rw [heapAlloc_next]
                    omega

theorem regionSafeStep_refl (S : Nat → Prop) (h : Heap)
    (hinv : NoDictEdgesInto S h) : RegionSafeStep S h h :=
  ⟨fun _ _ => rfl, Nat.le_refl _, hinv⟩

theorem regionSafeStep_trans (S : Nat → Prop) (h h1 h2 : Heap)
    (r1 : RegionSafeStep S h h1) (r2 : RegionSafeStep S h1 h2) :
    RegionSafeStep S h h2 :=
  ⟨fun a ha => (r2.1 a ha).trans (r1.1 a ha), Nat.le_trans r1.2.1 r2.2.1, r2.2.2⟩

theorem sbound_mono (S : Nat → Prop) (h h1 : Heap) (hsb : SBound S h)
    (hle : h.next ≤ h1.next) : SBound S h1 :=
  fun a ha => Nat.lt_of_lt_of_le (hsb a ha) hle

theorem heapSet_region (S : Nat → Prop) (h : Heap) (a : Nat) (o : HObj)
    (ha : ¬S a)
    (ho : ∀ es, o = HObj.hdict es → ∀ k b, (k, HVal.ref b) ∈ es → ¬S b)
    (hinv : NoDictEdgesInto S h) : RegionSafeStep S h (heapSet h a o) := by
  refine ⟨?_, Nat.le_refl _, ?_⟩
  · intro x hx
    show (if x = a then o else h.objs x) = h.objs x
    rw [if_neg ?_]
    intro hxa
    rw [hxa] at hx
    exact ha hx
  · intro x hx es hes k b hmem
    by_cases hxa : x = a
    · have hox : (heapSet h a o).objs x = o := by
        show (if x = a then o else h.objs x) = o
        rw [if_pos hxa]
      rw [hox] at hes
      exact ho es hes k b hmem
    · have hox : (heapSet h a o).objs x = h.objs x := by
        show (if x = a then o else h.objs x) = h.objs x
        rw [if_neg hxa]
      rw [hox] at hes
      exact hinv x hx es hes k b hmem

theorem growsFresh_region (S : Nat → Prop) (h h1 : Heap)
    (g : GrowsFresh h.next h h1) (hsb : SBound S h)
    (hinv : NoDictEdgesInto S h) : RegionSafeStep S h h1 := by
  obtain ⟨gb, gu, gm, gf⟩ := g
  refine ⟨fun a ha => gb a (hsb a ha), gm, ?_⟩
  intro x hx es hes k b hmem
  by_cases hlt : x < h.next
  · rw [gb x hlt] at hes
    exact hinv x hx es hes k b hmem
  · by_cases hge : h1.next ≤ x
    · rw [gu x hge] at hes
      exact hinv x hx es hes k b hmem
    · have hb := gf x (Nat.le_of_not_lt hlt) (Nat.lt_of_not_le hge) es hes k b hmem
      intro hSb
      exact absurd (hsb b hSb) (Nat.not_lt.mpr hb)

theorem getKey?_mem {A : Type} (es : List (PyScalar × A)) (k : PyScalar) (v : A)
    (h : getKey? es k = some v) : (k, v) ∈ es := by
  induction es with
  | nil => cases h
  | cons e rest ih =>
      obtain ⟨k1, v1⟩ := e
      rw [getKey?_cons] at h
      by_cases hk : k1 = k
      · rw [if_pos hk] at h
        injection h with h1
        subst hk
        subst h1
        exact List.mem_cons_self _ _
      · rw [if_neg hk] at h
        exact List.mem_cons_of_mem _ (ih h)

theorem mem_setKey {A : Type} (es : List (PyScalar × A)) (k : PyScalar) (v : A) :
    ∀ kv ∈ setKey es k v, kv ∈ es ∨ kv.2 = v := by
  induction es with
  | nil =>
      intro kv hkv
      simp only [setKey] at hkv
      rw [List.mem_singleton.mp hkv]
      exact Or.inr rfl
  | cons e rest ih =>
      intro kv hkv
      obtain ⟨k1, v1⟩ := e
      by_cases hk : k1 = k
      · rw [setKey_cons_pos k1 v1 rest k v hk] at hkv
        rcases List.mem_cons.mp hkv with h1 | h1
        · right
          rw [h1]
        · left
          exact List.mem_cons_of_mem _ h1
      · rw [setKey_cons_neg k1 v1 rest k v hk] at hkv
        rcases List.mem_cons.mp hkv with h1 | h1
        · left
          rw [h1]
          exact List.mem_cons_self _ _
        · rcases ih kv h1 with h2 | h2
          · left
            exact List.mem_cons_of_mem _ h2
          · right
            exact h2

theorem copyAndBind_region (cfuel : Nat) (S : Nat → Prop) (h : Heap) (ta : Nat)
    (tes : HEntries) (k : PyScalar) (v : HVal) (r : HResult) (h1 : Heap)
    (hta : ¬S ta) (htes : h.objs ta = HObj.hdict tes)
    (hsb : SBound S h) (hinv : NoDictEdgesInto S h)
    (hrun : copyAndBind cfuel h ta tes k v = (r, h1)) :
    RegionSafeStep S h h1 := by
  simp only [copyAndBind] at hrun
  cases hc : deepcopyVal cfuel h v with
  | none =>
      rw [hc] at hrun
      cases hrun
      exact regionSafeStep_refl S h hinv
  | some p =>
      obtain ⟨h2, v1⟩ := p
      rw [hc] at hrun
      cases hrun
      obtain ⟨g, hv1⟩ := deepcopyVal_spec cfuel h v h2 v1 hc
      have r1 : RegionSafeStep S h h2 := growsFresh_region S h h2 g hsb hinv
      refine regionSafeStep_trans S h h2 _ r1 ?_
      refine heapSet_region S h2 ta (HObj.hdict (setKey tes k v1)) hta ?_ r1.2.2
      intro es hes k2 b hmem
      injection hes with hes1
      rw [← hes1] at hmem
      rcases mem_setKey tes k v1 (k2, HVal.ref b) hmem with hm | hm
      · exact hinv ta hta tes htes k2 b hm
      · obtain ⟨hlo, _⟩ := hv1 b hm.symm
        intro hSb
        exact absurd (hsb b hSb) (Nat.not_lt.mpr hlo)

theorem mergeHeapStep_region (cfuel : Nat) (S : Nat → Prop)
    (recurse : Heap → Nat → Nat → HResult × Heap)
    (hrec : ∀ h2 c b r2 h3, ¬S c → SBound S h2 → NoDictEdgesInto S h2 →
      recurse h2 c b = (r2, h3) → RegionSafeStep S h2 h3)
    (h : Heap) (ta : Nat) (tes : HEntries) (k : PyScalar) (v : HVal)
    (r : HResult) (h1 : Heap)
    (hta : ¬S ta) (htes : h.objs ta = HObj.hdict tes)
    (hsb : SBound S h) (hinv : NoDictEdgesInto S h)
    (hrun : mergeHeapStep cfuel recurse h ta tes k v = (r, h1)) :
    RegionSafeStep S h h1 := by
  have hsetk : ∀ w : HVal, (∀ b2, w = HVal.ref b2 → ¬S b2) →
      RegionSafeStep S h (heapSet h ta (HObj.hdict (setKey tes k w))) := by
    intro w hw
    refine heapSet_region S h ta _ hta ?_ hinv
    intro es hes k2 b2 hmem
    injection hes with hes1
    rw [← hes1] at hmem
    rcases mem_setKey tes k w (k2, HVal.ref b2) hmem with hm | hm
    · exact hinv ta hta tes htes k2 b2 hm
    · exact hw b2 hm.symm
  have hgetS : ∀ c, getKey? tes k = some (HVal.ref c) → ¬S c := fun c hg =>
    hinv ta hta tes htes k c (getKey?_mem tes k (HVal.ref c) hg)
  cases v with
  | scalar s =>
      simp only [mergeHeapStep] at hrun
      cases hrun
      exact hsetk (HVal.scalar s) (by intro b2 hb; cases hb)
  | ref b =>
      simp only [mergeHeapStep] at hrun
      split at hrun
      next xs heqb =>
          split at hrun
          next hg =>
              exact copyAndBind_region cfuel S h ta tes k (HVal.ref b) r h1 hta htes
                hsb hinv hrun
          next c hg =>
              split at hrun
              next ys heqc =>
                  cases hrun
                  refine heapSet_region S h c _ (hgetS c hg) ?_ hinv
                  intro es hes k2 b2 hmem
                  cases hes
              next heqc =>
                  exact copyAndBind_region cfuel S h ta tes k (HVal.ref b) r h1 hta htes
                    hsb hinv hrun
          next s hg =>
              exact copyAndBind_region cfuel S h ta tes k (HVal.ref b) r h1 hta htes
                hsb hinv hrun
      next des heqb =>
          split at hrun
          next hg =>
              exact copyAndBind_region cfuel S h ta tes k (HVal.ref b) r h1 hta htes
                hsb hinv hrun
          next c hg =>
              split at hrun
              next des2 heqc => exact hrec h c b r h1 (hgetS c hg) hsb hinv hrun
              next heqc =>
                  exact copyAndBind_region cfuel S h ta tes k (HVal.ref b) r h1 hta htes
                    hsb hinv hrun
          next s hg =>
              exact copyAndBind_region cfuel S h ta tes k (HVal.ref b) r h1 hta htes
                hsb hinv hrun
      next xs heqb =>
          split at hrun
          next hg =>
              cases hrun
              have ralloc : RegionSafeStep S h (heapAlloc h (HObj.hset xs)).1 :=
                growsFresh_region S h _
                  (heapAlloc_growsFresh h.next h (HObj.hset xs)
                    (by intro es hes; cases hes))
                  hsb hinv
              refine regionSafeStep_trans S h _ _ ralloc ?_
              refine heapSet_region S _ ta _ hta ?_ ralloc.2.2
              intro es hes k2 b2 hmem
              injection hes with hes1
              rw [← hes1] at hmem
              have hv1 : (heapAlloc h (HObj.hset xs)).2 = HVal.ref h.next := rfl
              rw [hv1] at hmem
              rcases mem_setKey tes k (HVal.ref h.next) (k2, HVal.ref b2) hmem with hm | hm
              · exact hinv ta hta tes htes k2 b2 hm
              · injection hm with hm1
                rw [hm1]
                intro hS
                exact absurd (hsb _ hS) (Nat.lt_irrefl _)
          next c hg =>
              split at hrun
              next ys heqc =>
                  cases hrun
                  refine heapSet_region S h c _ (hgetS c hg) ?_ hinv
                  intro es hes k2 b2 hmem
                  cases hes
              next heqc =>
                  exact copyAndBind_region cfuel S h ta tes k (HVal.ref b) r h1 hta htes
                    hsb hinv hrun
          next s hg =>
              exact copyAndBind_region cfuel S h ta tes k (HVal.ref b) r h1 hta htes
                hsb hinv hrun

theorem mergeHeapLoop_region (cfuel : Nat) (S : Nat → Prop)
    (recurse : Heap → Nat → Nat → HResult × Heap)
    (hrec : ∀ h2 c b r2 h3, ¬S c → SBound S h2 → NoDictEdgesInto S h2 →
      recurse h2 c b = (r2, h3) → RegionSafeStep S h2 h3)
    (ta : Nat) (hta : ¬S ta) :
    ∀ (ses : HEntries) (h : Heap) (r : HResult) (h1 : Heap),
      SBound S h → NoDictEdgesInto S h →
      mergeHeapLoop cfuel recurse ta h ses = (r, h1) → RegionSafeStep S h h1 := by
  intro ses
  induction ses with
  | nil =>
      intro h r h1 hsb hinv hrun
      simp only [mergeHeapLoop] at hrun
      cases hrun
      exact regionSafeStep_refl S h hinv
  | cons e rest ih =>
      intro h r h1 hsb hinv hrun
      obtain ⟨k, v⟩ := e
      simp only [mergeHeapLoop] at hrun
      split at hrun
      next tes htes =>
          split at hrun
          next h2 hstep =>
              have r1 := mergeHeapStep_region cfuel S recurse hrec h ta tes k v
                HResult.hok h2 hta htes hsb hinv hstep
              exact regionSafeStep_trans S h h2 h1 r1
                (ih h2 r h1 (sbound_mono S h h2 hsb r1.2.1) r1.2.2 hrun)
          next r2 h2 hne hstep =>
              injection hrun with hr1 hr2
              rw [← hr2]
              exact mergeHeapStep_region cfuel S recurse hrec h ta tes k v
                r2 h2 hta htes hsb hinv hstep
      next hnot =>
          cases hrun
          exact regionSafeStep_refl S h hinv

theorem mergeHeapFuel_region (cfuel : Nat) (S : Nat → Prop) :
    ∀ (fuel : Nat) (h : Heap) (ta sa : Nat) (r : HResult) (h1 : Heap),
      ¬S ta → SBound S h → NoDictEdgesInto S h →
      mergeHeapFuel cfuel fuel h ta sa = (r, h1) → RegionSafeStep S h h1 := by
  intro fuel
  induction fuel with
  | zero =>
      intro h ta sa r h1 hta hsb hinv hrun
      simp only [mergeHeapFuel] at hrun
      cases hrun
      exact regionSafeStep_refl S h hinv
  | succ fuel ih =>
      intro h ta sa r h1 hta hsb hinv hrun
      simp only [mergeHeapFuel] at hrun
      split at hrun
      next hsa =>
          cases hrun
          refine heapSet_region S h ta (HObj.hdict []) hta ?_ hinv
          intro es hes k b hmem
          injection hes with hes1
          rw [← hes1] at hmem
          cases hmem
      next e ses hsa =>
          exact mergeHeapLoop_region cfuel S _
            (fun h2 c b r2 h3 hc hsb2 hinv2 hr2 => ih h2 c b r2 h3 hc hsb2 hinv2 hr2)
            ta hta (e :: ses) h r h1 hsb hinv hrun
      next hnot =>
          cases hrun
          exact regionSafeStep_refl S h hinv

theorem mem_objRefs_hlist (xs : List HVal) (c : Nat) (v : HVal) (hv : v ∈ xs)
    (hc : v = HVal.ref c) : c ∈ objRefs (HObj.hlist xs) := by
  simp only [objRefs, List.mem_filterMap]
  exact ⟨v, hv, by rw [hc]⟩

theorem mem_objRefs_hdict (es : HEntries) (c : Nat) (kv : PyScalar × HVal)
    (hv : kv ∈ es) (hc : kv.2 = HVal.ref c) : c ∈ objRefs (HObj.hdict es) := by
  simp only [objRefs, List.mem_filterMap]
  exact ⟨kv, hv, by rw [hc]⟩

theorem mapM_option_congr {A B : Type} (f g : A → Option B) :
    ∀ xs : List A, (∀ x ∈ xs, f x = g x) → xs.mapM f = xs.mapM g := by
  intro xs
  induction xs with
  | nil => intro hfg; rfl
  | cons x rest ih =>
      intro hfg
      simp only [List.mapM_cons]
      rw [hfg x (List.mem_cons_self _ _),
        ih (fun y hy => hfg y (List.mem_cons_of_mem _ hy))]

theorem readVal_ref (rfuel : Nat) (h : Heap) (b : Nat) :
    readVal (rfuel + 1) h (HVal.ref b) =
      match h.objs b with
      | HObj.hlist xs => (xs.mapM (fun v => readVal rfuel h v)).map PyVal.pylist
      | HObj.hset xs => some (PyVal.pyset xs)
      | HObj.hdict es =>
          (es.mapM (fun kv => (readVal rfuel h kv.2).map (fun w => (kv.1, w)))).map
            PyVal.pydict := rfl

/-- Values read back from the heap depend only on the objects of the region
the root reference stays inside: two heaps agreeing on a reference-closed
region read back identically. -/
theorem readVal_frame (S : Nat → Prop) (h h1 : Heap)
    (hagree : ∀ a, S a → h1.objs a = h.objs a)
    (hclosed : RegionClosed S h) :
    ∀ (rfuel : Nat) (v : HVal), (∀ b, v = HVal.ref b → S b) →
      readVal rfuel h1 v = readVal rfuel h v := by
  intro rfuel
  induction rfuel with
  | zero =>
      intro v hv
      cases v with
      | scalar s => rfl
      | ref b => rfl
  | succ rfuel ih =>
      intro v hv
      cases v with
      | scalar s => rfl
      | ref b =>
          have hSb : S b := hv b rfl
          rw [readVal_ref, readVal_ref, hagree b hSb]
          cases ho : h.objs b with
          | hlist xs =>
              simp only []
              have hcong : (xs.mapM fun v2 => readVal rfuel h1 v2) =
                  xs.mapM fun v2 => readVal rfuel h v2 := by
                apply mapM_option_congr
                intro x hx
                apply ih
                intro c hc
                refine hclosed b hSb c ?_
                rw [ho]
                exact mem_objRefs_hlist xs c x hx hc
              rw [hcong]
          | hset xs => rfl
          | hdict es =>
              simp only []
              have hcong : (es.mapM fun kv =>
                    (readVal rfuel h1 kv.2).map (fun w => (kv.1, w))) =
                  es.mapM fun kv => (readVal rfuel h kv.2).map (fun w => (kv.1, w)) := by
                apply mapM_option_congr
                intro kv hkv
                have hone : readVal rfuel h1 kv.2 = readVal rfuel h kv.2 := by
                  apply ih
                  intro c hc
                  refine hclosed b hSb c ?_
                  rw [ho]
                  exact mem_objRefs_hdict es c kv hkv hc
                rw [hone]
              rw [hcong]

/-- Claim C9: when the target shares no mutable substructure with the
source — formalised as: the source region `S` (a reference-closed set of
allocated addresses containing the source root) is not referenced from any
dictionary binding outside it, and the target root lies outside it — the
heap-level `dict_deep_update` leaves every object of the source region
byte-for-byte unchanged, whatever it returns or raises; in particular the
source mapping reads back as exactly the same pure value afterwards.
Values installed into the target are deep copies at fresh addresses, direct
scalar copies, or in-place mutations of the target objects, never
mutations of the source. -/
theorem C9_merge_never_mutates_source (cfuel : Nat) (h : Heap) (ta sa : Nat)
    (S : Nat → Prop) (r : HResult) (h1 : Heap)
    (hta : ¬S ta) (hsa : S sa)
    (hsb : SBound S h)
    (hclosed : RegionClosed S h)
    (hinv : NoDictEdgesInto S h)
    (hrun : dict_deep_update_heap cfuel h (some ta) (some sa) 0 = (r, h1)) :
    (∀ a, S a → h1.objs a = h.objs a) ∧
    (∀ rfuel, readVal rfuel h1 (HVal.ref sa) = readVal rfuel h (HVal.ref sa)) := by
  have hfuel : dict_deep_update_heap cfuel h (some ta) (some sa) 0 =
      mergeHeapFuel cfuel 9 h ta sa := rfl
  rw [hfuel] at hrun
  have hr := mergeHeapFuel_region cfuel S 9 h ta sa r h1 hta hsb hinv hrun
  refine ⟨hr.1, fun rfuel => ?_⟩
  refine readVal_frame S h h1 hr.1 hclosed rfuel (HVal.ref sa) ?_
  intro b hb
  injection hb with hb1
  rw [← hb1]
  exact hsa

theorem c9Heap_sbound : SBound (fun a => a = 0) c9Heap := by
  intro a ha
  rw [ha]
  show 0 < 2
  omega

theorem c9Heap_closed : RegionClosed (fun a => a = 0) c9Heap := by
  intro a ha b hb
  rw [ha] at hb
  simp [c9Heap, objRefs] at hb

theorem c9Heap_noedges : NoDictEdgesInto (fun a => a = 0) c9Heap := by
  intro a ha es hes k b hmem
  by_cases h1 : a = 1
  · rw [h1] at hes
    have hobj : c9Heap.objs 1 =
        HObj.hdict [(PyScalar.pystr "x", HVal.scalar (PyScalar.pyint 2)),
          (PyScalar.pystr "y", HVal.scalar (PyScalar.pyint 3))] := rfl
    rw [hobj] at hes
    injection hes with hes1
    rw [← hes1] at hmem
    simp at hmem
  · have hobj : c9Heap.objs a = HObj.hdict [] := by
      simp [c9Heap, ha, h1]
    rw [hobj] at hes
    injection hes with hes1
    rw [← hes1] at hmem
    cases hmem

/-- Witness for claim C9 at a concrete two-dictionary heap (copy fuel 4):
the source object at address 0 is untouched by the merge and reads back as
the same mapping afterwards. -/
theorem C9_merge_never_mutates_source_witness :
    (dict_deep_update_heap 4 c9Heap (some 1) (some 0) 0).2.objs 0 = c9Heap.objs 0 ∧
    readVal 3 (dict_deep_update_heap 4 c9Heap (some 1) (some 0) 0).2 (HVal.ref 0) =
      readVal 3 c9Heap (HVal.ref 0) := by
  have h := C9_merge_never_mutates_source 4 c9Heap 1 0 (fun a => a = 0)
    (dict_deep_update_heap 4 c9Heap (some 1) (some 0) 0).1
    (dict_deep_update_heap 4 c9Heap (some 1) (some 0) 0).2
    (by decide) rfl c9Heap_sbound c9Heap_closed c9Heap_noedges rfl
  exact ⟨h.1 0 rfl, h.2 3⟩
